import Mathlib

/-!
Verification of the selection and spatial-query engine of the Sentinel-2 grid
explorer (`script.js`), shallowly embedded in Lean 4.

Conventions of the embedding:
* JavaScript numbers are modeled as `Option ℚ` (`JNum`): `none` stands for
  `NaN` (and for `undefined` wherever it occurs inside an arithmetic or
  comparison expression, since `undefined` and `NaN` behave identically
  there: every comparison is false, every arithmetic result is `NaN`, and
  both are falsy).
* GeoJSON positions are arrays of numbers, modeled as `List ℚ`; rings are
  lists of positions.  Accessing a missing component (`coord[1]` of a
  one-element array) yields `undefined`, modeled through `List.get?`.
* Property values of features are modeled as JSON strings, which is the only
  value shape that the name-resolution and selection logic can act on
  without throwing (`name.toUpperCase()` on a non-string throws in JS).
* The JS `Map` backing `selectedGridMap` is modeled as an insertion-ordered
  association list: `Map.set` overwrites in place, keeping the original
  insertion position, `Map.delete` removes the entry, and re-insertion
  appends at the end — exactly the JS semantics.
* `getPolygonCentroid` throws a `TypeError` on a `MultiPolygon` whose
  `coordinates` array is empty (`coordinates[0][0]` on `undefined`), so it
  and every function that calls it return `Except Unit` with `.error ()`
  standing for the thrown exception.
-/

namespace Sentinel

/-- Decidable equality for `Except`, so that concrete runs of the throwing
functions can be checked by `decide`. -/
instance instDecEqExcept {e a : Type} [DecidableEq e] [DecidableEq a] :
    DecidableEq (Except e a) := fun x y =>
  match x, y with
  | .ok v, .ok w =>
    if h : v = w then isTrue (by rw [h]) else
      isFalse (fun hc => h (Except.ok.inj hc))
  | .error v, .error w =>
    if h : v = w then isTrue (by rw [h]) else
      isFalse (fun hc => h (Except.error.inj hc))
  | .ok _, .error _ => isFalse (fun hc => Except.noConfusion hc)
  | .error _, .ok _ => isFalse (fun hc => Except.noConfusion hc)

/-! ## JS number model -/

/-- A JavaScript number that may be `NaN` (`none`). -/
abbrev JNum := Option ℚ

/-- JS `a > b`: false whenever either side is `NaN`/`undefined`. -/
def jgt : JNum → JNum → Bool
  | some a, some b => a > b
  | _, _ => false

/-- JS `a < b`: false whenever either side is `NaN`/`undefined`. -/
def jlt : JNum → JNum → Bool
  | some a, some b => a < b
  | _, _ => false

/-- JS `a >= b`: false whenever either side is `NaN`/`undefined`. -/
def jge : JNum → JNum → Bool
  | some a, some b => a ≥ b
  | _, _ => false

/-- JS `a <= b`: false whenever either side is `NaN`/`undefined`. -/
def jle : JNum → JNum → Bool
  | some a, some b => a ≤ b
  | _, _ => false

/-- JS subtraction: `NaN` propagates. -/
def jsub : JNum → JNum → JNum
  | some a, some b => some (a - b)
  | _, _ => none

/-- JS addition: `NaN` propagates. -/
def jadd : JNum → JNum → JNum
  | some a, some b => some (a + b)
  | _, _ => none

/-- JS multiplication: `NaN` propagates. -/
def jmul : JNum → JNum → JNum
  | some a, some b => some (a * b)
  | _, _ => none

/-- JS division: `NaN` propagates.  A zero divisor is mapped to `NaN`; in the
source the only divisions are `sum/0` with a zero sum (which is `0/0 = NaN`
in JS, matching this model) and the ray-cast divisor, which the `|| 1e-12`
guard makes nonzero, so the `±Infinity` results of JS division never arise. -/
def jdiv : JNum → JNum → JNum
  | some a, some b => if b = 0 then none else some (a / b)
  | _, _ => none

/-- JS `a || b` on numbers: `b` is taken when `a` is falsy (`0`, `NaN`,
`undefined`). -/
def jorNum : JNum → JNum → JNum
  | some a, b => if a = 0 then b else some a
  | none, b => b

/-! ## Data model: features and geometry -/

/-- A GeoJSON position: an array of numbers (`[lng, lat, ...]`). -/
abbrev Coord := List ℚ

/-- A GeoJSON linear ring: an array of positions. -/
abbrev Ring := List Coord

/-- The geometry of a grid feature.  `other` stands for a missing geometry or
any type other than `Polygon`/`MultiPolygon` — every function in the source
treats those uniformly (guard clauses and untaken type branches). -/
inductive Geometry where
  | polygon (rings : List Ring)
  | multiPolygon (polys : List (List Ring))
  | other
deriving DecidableEq, Repr

/-- A grid feature: free-form properties plus a geometry.  Property values
are modeled as JSON strings (see the header comment). -/
structure Feature where
  properties : List (String × String)
  geometry : Geometry
deriving DecidableEq, Repr

/-- Look a key up in a feature's `properties` object (`properties?.[key]`). -/
def lookupProp (f : Feature) (k : String) : Option String :=
  (f.properties.find? (fun p => p.1 = k)).map (fun p => p.2)

/-- JS `a || b` on an optional string: `b` when `a` is `undefined` or the
empty string (the only falsy string). -/
def jsOrStr (a : Option String) (b : String) : String :=
  match a with
  | some s => if s = "" then b else s
  | none => b

/-- The source's `getGridName(feature)`: properties `name`, `Name`, `title`, `TITLE`,
`id` in order, falling back to the literal string `Grid`. -/
def getGridName (f : Feature) : String :=
  jsOrStr (lookupProp f "name") (jsOrStr (lookupProp f "Name")
    (jsOrStr (lookupProp f "title") (jsOrStr (lookupProp f "TITLE")
      (jsOrStr (lookupProp f "id") "Grid"))))

/-- JS `String.prototype.toUpperCase`, modeled per character (identical to
the JS behavior on the basic-latin letters that grid names consist of). -/
def upperStr (s : String) : String :=
  String.mk (s.data.map Char.toUpper)

/-- JS `String.prototype.toLowerCase`, modeled per character. -/
def lowerStr (s : String) : String :=
  String.mk (s.data.map Char.toLower)

/-- The uppercased grid name of a feature — the selection key. -/
def upperName (f : Feature) : String :=
  upperStr (getGridName f)

/-! ## Centroid computation (`getPolygonCentroid`) -/

/-- A computed centroid; each component may be `NaN` (`none`). -/
structure Centroid where
  lat : JNum
  lng : JNum
deriving DecidableEq, Repr

/-- The body of `getPolygonCentroid` once the outer ring has been extracted:
average of the coordinates of the positions with at least two components.
When no position qualifies the JS sums are `0` and the divisions are
`0/0 = NaN`, yielding a non-null `{lat: NaN, lng: NaN}` result. -/
def centroidOfRing (coords : Ring) : Option Centroid :=
  if coords = [] then none
  else
    let validCoords := coords.filter (fun c => 2 ≤ c.length)
    let sumLng : ℚ := (validCoords.map (fun c => c.headD 0)).sum
    let sumLat : ℚ := (validCoords.map (fun c => (c.drop 1).headD 0)).sum
    let n := validCoords.length
    some { lat := jdiv (some sumLat) (some n), lng := jdiv (some sumLng) (some n) }

/-- The source's `getPolygonCentroid(geometry)`.  `Polygon`: outer ring `coordinates[0]`;
`MultiPolygon`: `coordinates[0][0]` — when `coordinates` is empty this
JS expression throws a `TypeError` (indexing into `undefined`), modeled as
`.error ()`; when only the first polygon is empty, `coordinates[0][0]` is
`undefined` and the `!coords` guard returns null. -/
def getPolygonCentroid : Geometry → Except Unit (Option Centroid)
  | .other => .ok none
  | .polygon rings =>
    .ok (match rings.head? with
      | none => none
      | some r => centroidOfRing r)
  | .multiPolygon [] => .error ()
  | .multiPolygon (p :: _) =>
    .ok (match p.head? with
      | none => none
      | some r => centroidOfRing r)

/-! ## The selection store (`selectedGridMap`, a JS `Map`) -/

/-- A selection entry: the feature, its original-case name, and the centroid
cached at selection time. -/
structure Entry where
  feature : Feature
  name : String
  centroid : Option Centroid
deriving DecidableEq, Repr

/-- The selection store: an insertion-ordered association list modeling the
JS `Map` from uppercased grid name to entry. -/
abbrev Store := List (String × Entry)

/-- JS `map.has(k)`. -/
def mapHas (s : Store) (k : String) : Bool :=
  s.any (fun p => p.1 = k)

/-- JS `map.get(k)`. -/
def mapGet (s : Store) (k : String) : Option Entry :=
  (s.find? (fun p => p.1 = k)).map (fun p => p.2)

/-- JS `map.set(k, v)`: overwrites in place when the key is present
(keeping its insertion position), appends at the end otherwise. -/
def mapSet (s : Store) (k : String) (v : Entry) : Store :=
  match s with
  | [] => [(k, v)]
  | (k', v') :: rest => if k' = k then (k, v) :: rest else (k', v') :: mapSet rest k v

/-- JS `map.delete(k)`. -/
def mapDelete (s : Store) (k : String) : Store :=
  s.filter (fun p => p.1 ≠ k)

/-- The key list of the store, in insertion order. -/
def storeKeys (s : Store) : List String :=
  s.map (fun p => p.1)

/-- The source's `getSelectedEntries()`: `Array.from(selectedGridMap.values())`, in
insertion order. -/
def getSelectedEntries (s : Store) : List Entry :=
  s.map (fun p => p.2)

/-! ## Selection mutation (`updateSelection`, `removeGridFromSelection`,
`clearSelection`, `processGridClick`) -/

/-- The body of the `features.forEach` callback in `updateSelection`: skip a
falsy name (unreachable, since `getGridName` falls back to `Grid`), skip an
already-present key unless replacing, otherwise compute the centroid (which
may throw) and `set` the entry. -/
def addFeature (replace : Bool) (s : Store) (f : Feature) : Except Unit Store :=
  let name := getGridName f
  if name = "" then pure s
  else
    let upper := upperStr name
    if !replace && mapHas s upper then pure s
    else do
      let centroid ← getPolygonCentroid f.geometry
      pure (mapSet s upper { feature := f, name := name, centroid := centroid })

/-- The source's `updateSelection(features, { replace })`, restricted to the store state
(the `centerMap`/`flash`/`focusShareLink` options only drive the UI refresh).
An empty feature list returns early without touching the store; with
`replace` the store is cleared first. -/
def updateSelection (features : List Feature) (replace : Bool) (s : Store) :
    Except Unit Store :=
  if features = [] then pure s
  else (if replace then ([] : Store) else s) |>
    fun s0 => features.foldlM (addFeature replace) s0

/-- The source's `removeGridFromSelection(gridName)`: no-op on a falsy name or an absent
key, otherwise delete the uppercased key. -/
def removeGridFromSelection (gridName : String) (s : Store) : Store :=
  if gridName = "" then s
  else
    let upper := upperStr gridName
    if mapHas s upper then mapDelete s upper else s

/-- The source's `clearSelection()` on the store state. -/
def clearSelection (_s : Store) : Store := []

/-- The seen-name accumulator loop of `dedupeFeaturesByName`. -/
def dedupeAux (seen : List String) : List Feature → List Feature
  | [] => []
  | f :: rest =>
    let name := getGridName f
    if name = "" then dedupeAux seen rest
    else
      let upper := upperStr name
      if upper ∈ seen then dedupeAux seen rest
      else f :: dedupeAux (upper :: seen) rest

/-- The source's `dedupeFeaturesByName(features)`: keep the first feature for each
uppercased name.  (The JS `if (!feature) return` guard for null array slots
has no counterpart: the model's lists hold only features.) -/
def dedupeFeaturesByName (features : List Feature) : List Feature :=
  dedupeAux [] features

/-- The body of the removal loop in `processGridClick` (the inner
`selectedGridMap.has` re-check is the source's own). -/
def applyToggleRemove (acc : Store) (upper : String) : Store :=
  if mapHas acc upper then mapDelete acc upper else acc

/-- The body of the addition loop in `processGridClick`: skip a key that
appeared meanwhile, otherwise compute the centroid (which may throw) and
`set` the entry.  The triple is `(candidate, name, upper)`. -/
def applyToggleAdd (acc : Store) (cnu : Feature × String × String) :
    Except Unit Store :=
  if mapHas acc cnu.2.2 then pure acc
  else do
    let centroid ← getPolygonCentroid cnu.1.geometry
    pure (mapSet acc cnu.2.2
      { feature := cnu.1, name := cnu.2.1, centroid := centroid })

/-- The candidate array of `processGridClick`: the clicked feature is
unshifted when the point candidates do not already hold it (JS compares by
reference; features here are compared structurally). -/
def toggleCandidates (f : Feature) (ptCandidates : List Feature) :
    List Feature :=
  if ptCandidates.any (fun c => c = f) then ptCandidates
  else f :: ptCandidates

/-- The removal half of the classification `forEach` in `processGridClick`:
a candidate already selected stages its uppercased name for removal. -/
def classifyRemove (s : Store) (c : Feature) : Option String :=
  let name := getGridName c
  if name = "" then none
  else
    let upper := upperStr name
    if mapHas s upper then some upper else none

/-- The addition half of the classification `forEach`: a candidate not yet
selected stages `(feature, name, upper)` for addition. -/
def classifyAdd (s : Store) (c : Feature) :
    Option (Feature × String × String) :=
  let name := getGridName c
  if name = "" then none
  else
    let upper := upperStr name
    if mapHas s upper then none else some (c, name, upper)

/-- The source's `processGridClick(feature, event)`, restricted to the store state.
`ptCandidates` is the result of `findGridCandidatesAtLatLng(event.latlng)`
(the rendered polygons containing the click point; empty when the event has
no coordinate); `suppress` is the `suppressNextGridClick` flag.  The single
`forEach` classifies every deduplicated candidate against the store as it
was before any mutation, then removals are applied before additions. -/
def processGridClick (f : Feature) (ptCandidates : List Feature)
    (suppress : Bool) (s : Store) : Except Unit Store :=
  if suppress then pure s
  else
    let uniqueCandidates := dedupeFeaturesByName (toggleCandidates f ptCandidates)
    if uniqueCandidates = [] then pure s
    else
      let namesToRemove := uniqueCandidates.filterMap (classifyRemove s)
      let featuresToAdd := uniqueCandidates.filterMap (classifyAdd s)
      if namesToRemove = [] ∧ featuresToAdd = [] then pure s
      else do
        let s1 := namesToRemove.foldl applyToggleRemove s
        featuresToAdd.foldlM applyToggleAdd s1

/-! ## Bounds, world wrapping and visibility -/

/-- A Leaflet `LatLngBounds` as the four accessor values
`getSouth`/`getNorth`/`getWest`/`getEast`. -/
structure Bounds where
  south : ℚ
  north : ℚ
  west : ℚ
  east : ℚ
deriving DecidableEq, Repr

/-- The source's `L.latLngBounds(corner1, corner2)`: Leaflet extends an empty bounds with
both corner points, so south/west are the minima and north/east the maxima
of the two corners (each corner is `(lat, lng)`). -/
def latLngBounds (c1 c2 : ℚ × ℚ) : Bounds :=
  { south := min c1.1 c2.1, north := max c1.1 c2.1,
    west := min c1.2 c2.2, east := max c1.2 c2.2 }

/-- The source's `getWrappedBounds(bounds)`: the box itself; the two antimeridian split
boxes when `west > east`; then the corner boxes shifted by `-360` and
`+360` longitude (the offset-0 iteration is skipped). -/
def getWrappedBounds (b : Bounds) : List Bounds :=
  [b]
    ++ (if b.west > b.east then
          [latLngBounds (b.south, b.west) (b.north, 180),
           latLngBounds (b.south, -180) (b.north, b.east)]
        else [])
    ++ [latLngBounds (b.south, b.west - 360) (b.north, b.east - 360),
        latLngBounds (b.south, b.west + 360) (b.north, b.east + 360)]

/-- The minimum of a nonempty rational list (`Math.min` folded from
`Infinity`; the `[]` case is unreachable at call sites). -/
def rqMin : List ℚ → ℚ
  | [] => 0
  | x :: xs => xs.foldl min x

/-- The maximum of a nonempty rational list (`Math.max` folded from
`-Infinity`). -/
def rqMax : List ℚ → ℚ
  | [] => 0
  | x :: xs => xs.foldl max x

/-- The source's `isPolygonIntersectingBounds(coords, bounds)`: bounding box of the ring
against the view box, with the `west > east` antimeridian special case.  A
position missing a component poisons the JS `Math.min`/`Math.max` folds with
`NaN`, making `latIntersects` false (a missing `coord[0]` implies a missing
`coord[1]`), so the function returns false; the model tests all positions
for both components up front. -/
def isPolygonIntersectingBounds (coords : Ring) (b : Bounds) : Bool :=
  if coords = [] then false
  else if ¬ coords.all (fun c => 2 ≤ c.length) then false
  else
    let lats := coords.map (fun c => (c.drop 1).headD 0)
    let lngs := coords.map (fun c => c.headD 0)
    let minLat := rqMin lats
    let maxLat := rqMax lats
    let minLng := rqMin lngs
    let maxLng := rqMax lngs
    let lngIntersects :=
      (decide (maxLng ≥ b.west) && decide (minLng ≤ b.east)) ||
        (decide (b.west > b.east) &&
          (decide (maxLng ≥ b.west) || decide (minLng ≤ b.east)))
    let latIntersects := decide (maxLat ≥ b.south) && decide (minLat ≤ b.north)
    lngIntersects && latIntersects

/-- The per-feature visibility test of `getVisibleGrids`: the geometry's
outer ring(s) against any wrapped box.  A feature without geometry (or with
a non-polygonal type) is never visible; `coordinates[0]` of an empty
polygon is `undefined`, which the `!coords` guard of
`isPolygonIntersectingBounds` rejects, matching `headD []`. -/
def featureIsVisible (wrappedBounds : List Bounds) : Geometry → Bool
  | .other => false
  | .polygon rings =>
    wrappedBounds.any (fun wb => isPolygonIntersectingBounds (rings.headD []) wb)
  | .multiPolygon polys =>
    wrappedBounds.any (fun wb =>
      polys.any (fun p => isPolygonIntersectingBounds (p.headD []) wb))

/-- The source's `getVisibleGrids(bounds)` over a feature list. -/
def getVisibleGrids (gridFeatures : List Feature) (b : Bounds) : List Feature :=
  gridFeatures.filter (fun f => featureIsVisible (getWrappedBounds b) f.geometry)

/-! ## Point-in-polygon (`isPointInLinearRing`, `isPointInPolygon`) -/

/-- The JS literal `1e-12` used as the degenerate-edge tie-break divisor. -/
def tieBreak : ℚ := 1 / 1000000000000

/-- One iteration of the ray-casting loop: edge from `ring[j]` to `ring[i]`
(`ci` is `ring[i]`, `cj` is `ring[j]`).  Missing position components enter
the formula as `undefined`, which the `JNum` operations propagate exactly as
JS does (including `NaN || 1e-12` selecting the tie-break divisor). -/
def rayCastStep (p : ℚ × ℚ) (inside : Bool) (ci cj : Coord) : Bool :=
  let xi : JNum := ci.get? 0
  let yi : JNum := ci.get? 1
  let xj : JNum := cj.get? 0
  let yj : JNum := cj.get? 1
  let intersects :=
    (jgt yi (some p.2) != jgt yj (some p.2)) &&
      jlt (some p.1)
        (jadd (jdiv (jmul (jsub xj xi) (jsub (some p.2) yi))
          (jorNum (jsub yj yi) (some tieBreak))) xi)
  if intersects then !inside else inside

/-- The source's `isPointInLinearRing(point, ring)`: ray casting over the edges
`(ring[i], ring[j])` with `j` trailing `i` (starting at the last vertex).
The point is `(lng, lat)` as built by `isLatLngInFeature`. -/
def isPointInLinearRing (p : ℚ × ℚ) (ring : Ring) : Bool :=
  if ring = [] then false
  else
    (ring.zip (ring.getLastD [] :: ring.dropLast)).foldl
      (fun inside e => rayCastStep p inside e.1 e.2) false

/-- The source's `isPointInPolygon(point, polygon)`: inside the outer ring `polygon[0]`
and inside none of the hole rings `polygon[1..]`. -/
def isPointInPolygon (p : ℚ × ℚ) (polygon : List Ring) : Bool :=
  match polygon with
  | [] => false
  | outerRing :: holes =>
    if ¬ isPointInLinearRing p outerRing then false
    else if holes.any (fun r => isPointInLinearRing p r) then false
    else true

/-! ## Rectangle selection (`findFeaturesInBounds`,
`completeRectangleSelection`) -/

/-- The source's `bounds.contains(latlng)` (Leaflet): all four comparisons, false on
`NaN` components. -/
def boundsContains (b : Bounds) (lat lng : JNum) : Bool :=
  jge lat (some b.south) && jle lat (some b.north) &&
    jge lng (some b.west) && jle lng (some b.east)

/-- The source's `doesFeatureIntersectBounds(feature, bounds)`: outer-ring bounding box
test per polygon part (`coordinates?.[0]`/`polygon?.[0]` — an existing ring
array, even an empty one, is truthy), then the centroid-containment
fallback, which may throw through `getPolygonCentroid`. -/
def doesFeatureIntersectBounds (f : Feature) (b : Bounds) :
    Except Unit Bool :=
  let ringHit :=
    match f.geometry with
    | .polygon rings =>
      match rings.head? with
      | some r => isPolygonIntersectingBounds r b
      | none => false
    | .multiPolygon polys =>
      polys.any (fun p =>
        match p.head? with
        | some r => isPolygonIntersectingBounds r b
        | none => false)
    | .other => false
  if ringHit then pure true
  else do
    let centroid ← getPolygonCentroid f.geometry
    match centroid with
    | some c => pure (boundsContains b c.lat c.lng)
    | none => pure false

/-- The source's `findFeaturesInBounds(bounds)` over the loaded dataset: collect the
intersecting features in dataset order, then de-duplicate by name. -/
def findFeaturesInBounds (gridFeatures : List Feature) (b : Bounds) :
    Except Unit (List Feature) := do
  let matchList ← gridFeatures.foldlM (fun acc f => do
    let hit ← doesFeatureIntersectBounds f b
    pure (if hit then acc ++ [f] else acc)) []
  pure (dedupeFeaturesByName matchList)

/-- One step of the `newFeaturesCount` reduction in
`completeRectangleSelection`: a feature counts when the selection is being
replaced or its uppercased name is not yet selected (`s` is the store as it
was when the gesture completed, `decide (s = [])` is `replaceSelection`). -/
def rectCountStep (s : Store) (count : Nat) (f : Feature) : Nat :=
  let name := getGridName f
  if name = "" then count
  else count + (if decide (s = []) || !mapHas s (upperStr name) then 1 else 0)

/-- The source's `completeRectangleSelection(finalLatLng)`, restricted to the selection
state.  A gesture that never moved, or without both corner coordinates, is a
no-op; otherwise the matched features are applied with `replace` exactly
when the store was empty, and an add that would contribute no new name
(`newFeaturesCount === 0`) is skipped. -/
def completeRectangleSelection (hasMoved : Bool)
    (startLatLng finalLatLng : Option (ℚ × ℚ)) (gridFeatures : List Feature)
    (s : Store) : Except Unit Store :=
  if ¬ hasMoved then pure s
  else
    match startLatLng, finalLatLng with
    | some st, some fin => do
      let bounds := latLngBounds st fin
      let selectedFeatures ← findFeaturesInBounds gridFeatures bounds
      if selectedFeatures = [] then pure s
      else
        let replaceSelection : Bool := s = []
        let newFeaturesCount := selectedFeatures.foldl (rectCountStep s) 0
        if replaceSelection = false ∧ newFeaturesCount = 0 then pure s
        else updateSelection selectedFeatures replaceSelection s
    | _, _ => pure s

/-! ## Share-state codec (`updateAddressBarWithSelection`,
`getGridParamsFromUrl`).  The URL layer itself (`URLSearchParams.set`/`get`)
percent-encodes and -decodes transparently, so the codec is modeled on the
two decoded parameter values `grid` and `grids`; an absent parameter is
`none` (JS `null`). -/

/-- JS `[...new Set(l)]`: de-duplicate keeping first occurrences. -/
def jsDedupAux (seen : List String) : List String → List String
  | [] => []
  | x :: xs =>
    if x ∈ seen then jsDedupAux seen xs else x :: jsDedupAux (x :: seen) xs

/-- JS `[...new Set(l)]`, from an empty seen set. -/
def jsDedup (l : List String) : List String :=
  jsDedupAux [] l

/-- Strict code-unit lexicographic order on character lists. -/
def ltCharList : List Char → List Char → Bool
  | [], [] => false
  | [], _ :: _ => true
  | _ :: _, [] => false
  | a :: as, b :: bs => if a < b then true else if b < a then false else ltCharList as bs

/-- The comparator of the default JS `Array.prototype.sort`: code-unit
lexicographic order (written out on the character lists so that it
evaluates). -/
def lexLe (a b : String) : Bool :=
  !(ltCharList b.data a.data)

/-- Insert a string into a sorted list. -/
def insertSorted (x : String) : List String → List String
  | [] => [x]
  | y :: ys => if lexLe x y then x :: y :: ys else y :: insertSorted x ys

/-- JS `Array.prototype.sort()` with the default comparator (modeled as
insertion sort; JS sort is not stability-relevant here since the input is
de-duplicated). -/
def sortStrings (l : List String) : List String :=
  l.foldr insertSorted []

/-- JS `Array.prototype.join(",")`. -/
def joinComma : List String → String
  | [] => ""
  | [x] => x
  | x :: xs => x ++ "," ++ joinComma xs

/-- The normalization applied by the encoder:
`[...new Set(names.map(n => n.toUpperCase()))].sort()`. -/
def sortedUpperNames (names : List String) : List String :=
  sortStrings (jsDedup (names.map upperStr))

/-- The source's `updateAddressBarWithSelection(gridNames)` restricted to the query
parameters it produces: both parameters are deleted, then exactly one name
sets `grid` and two or more set `grids` joined with commas.  The result is
`(grid, grids)`. -/
def updateAddressBarWithSelection (gridNames : List String) :
    Option String × Option String :=
  let upperSorted := sortedUpperNames gridNames
  match upperSorted with
  | [] => (none, none)
  | [x] => (some x, none)
  | xs => (none, some (joinComma xs))

/-- JS `String.prototype.split(",")` at the character level. -/
def splitCommaChars : List Char → List (List Char)
  | [] => [[]]
  | c :: cs =>
    let r := splitCommaChars cs
    if c = ',' then [] :: r
    else
      match r with
      | [] => [[c]]
      | h :: t => (c :: h) :: t

/-- JS `s.split(",")`. -/
def splitComma (s : String) : List String :=
  (splitCommaChars s.data).map String.mk

/-- JS `String.prototype.trim`, written out on the character list so that
it evaluates (drop whitespace from both ends). -/
def jsTrim (s : String) : String :=
  String.mk (((s.data.dropWhile Char.isWhitespace).reverse.dropWhile
    Char.isWhitespace).reverse)

/-- The `grids` branch of `getGridParamsFromUrl`: comma-split, trim, drop
empties, uppercase, in order. -/
def namesFromGridsParam (g : String) : List String :=
  (splitComma g).foldl (fun acc piece =>
    let trimmed := jsTrim piece
    if trimmed.length > 0 then acc ++ [upperStr trimmed] else acc) []

/-- The source's `getGridParamsFromUrl()` on the two decoded parameter values: names from
`grids` (when the parameter is present and non-empty — the empty string is
falsy) followed by the single `grid` name, de-duplicated; `null` when no
name survives. -/
def getGridParamsFromUrl (grid grids : Option String) : Option (List String) :=
  let names :=
    (match grids with
      | some g => if g = "" then [] else namesFromGridsParam g
      | none => [])
    ++ (match grid with
      | some g =>
        if g = "" then []
        else
          let trimmed := jsTrim g
          if trimmed.length > 0 then [upperStr trimmed] else []
      | none => [])
  let uniqueNames := jsDedup names
  if uniqueNames = [] then none else some uniqueNames

/-- The name list recovered from a URL state; `null` (no pending selection)
recovers the empty list. -/
def decodedNames (p : Option String × Option String) : List String :=
  (getGridParamsFromUrl p.1 p.2).getD []

/-! ## CSV export (`downloadSelectionAsCSV`) -/

/-- The source's `getSelectedNamesSorted()`: the stored original-case names, sorted
(`localeCompare` modeled as the default lexicographic order; the two agree
on the alphanumeric grid names). -/
def getSelectedNamesSorted (s : Store) : List String :=
  sortStrings (s.map (fun p => p.2.name))

/-- The source's `escapeCsvValue(value)` on a string value: quote and double the inner
quotes when the value contains a comma, a quote or a newline. -/
def escapeCsvValue (v : String) : String :=
  if v.data.any (fun c => c = '"' ∨ c = ',' ∨ c = '\n') then
    "\"" ++ (v.replace "\"" "\"\"") ++ "\""
  else v

/-- Six fractional digits, zero-padded. -/
def pad6 (s : String) : String :=
  String.mk (List.replicate (6 - s.length) '0') ++ s

/-- JS `num.toFixed(6)` on a rational (round to nearest, large values and
double-rounding artifacts out of scope for the finite grid coordinates). -/
def toFixed6 (q : ℚ) : String :=
  let n : ℤ := round (q * 1000000)
  let sign := if n < 0 then "-" else ""
  sign ++ toString (n.natAbs / 1000000) ++ "." ++ pad6 (toString (n.natAbs % 1000000))

/-- The source's `formatCsvNumber(num)`: empty for a non-number (the `lat: ''` sentinel)
or `NaN`, otherwise `toFixed(6)`. -/
def formatCsvNumber : JNum → String
  | none => ""
  | some q => toFixed6 q

/-- The distinct property keys of the selected entries, minus any
case-variant of `name`, sorted — the tail of the CSV header. -/
def csvPropertyKeys (entries : List Entry) : List String :=
  sortStrings ((jsDedup (entries.foldl (fun acc e =>
    acc ++ e.feature.properties.map (fun p => p.1)) [])).filter
      (fun k => lowerStr k ≠ "name"))

/-- The cells of one CSV data row: `entry.name || getGridName(...) || ''`,
the centroid cells (`entry.centroid || getPolygonCentroid(...) ||
{lat: '', lng: ''}` — any non-null centroid object is truthy, even one whose
components are `NaN`), and one cell per ordered property key (`''` for a
missing value), each CSV-escaped. -/
def csvRowCells (orderedPropertyKeys : List String) (e : Entry) :
    Except Unit (List String) := do
  let name := if e.name ≠ "" then e.name
    else (let g := getGridName e.feature; if g ≠ "" then g else "")
  let centroid ← (match e.centroid with
    | some c => pure (some c)
    | none => getPolygonCentroid e.feature.geometry)
  let latCell := match centroid with
    | some c => formatCsvNumber c.lat
    | none => ""
  let lngCell := match centroid with
    | some c => formatCsvNumber c.lng
    | none => ""
  let propertyValues := orderedPropertyKeys.map (fun k =>
    match lookupProp e.feature k with
    | some v => v
    | none => "")
  pure (([name, latCell, lngCell] ++ propertyValues).map escapeCsvValue)

/-- One CSV data row, comma-joined. -/
def csvRowLine (orderedPropertyKeys : List String) (e : Entry) :
    Except Unit String := do
  let cells ← csvRowCells orderedPropertyKeys e
  pure (joinComma cells)

/-- JS `Array.prototype.map` with a callback that may throw: the callback
runs left to right and an exception aborts the whole map. -/
def mapExcept (g : Entry → Except Unit String) :
    List Entry → Except Unit (List String)
  | [] => .ok []
  | e :: rest => do
    let r ← g e
    let rs ← mapExcept g rest
    pure (r :: rs)

/-- The data rows of `downloadSelectionAsCSV()`: one per selected entry, in
the store's order (`getSelectedEntries`). -/
def csvRows (s : Store) : Except Unit (List String) :=
  mapExcept (csvRowLine (csvPropertyKeys (getSelectedEntries s)))
    (getSelectedEntries s)

/-- JS `lines.join("\n")`. -/
def joinLines : List String → String
  | [] => ""
  | [x] => x
  | x :: xs => x ++ "\n" ++ joinLines xs

/-- The source's `downloadSelectionAsCSV()`: `none` models the `Select grids to export
first` feedback path on an empty selection; otherwise the full CSV text. -/
def downloadSelectionAsCSV (s : Store) : Except Unit (Option String) := do
  let selectionEntries := getSelectedEntries s
  if selectionEntries = [] then pure none
  else
    let headers := ["name", "centroid_lat", "centroid_lng"] ++
      csvPropertyKeys selectionEntries
    let rows ← csvRows s
    pure (some (joinLines (joinComma (headers.map escapeCsvValue) :: rows)))

/-! ## Claim-specific concrete inputs and the store-key invariant -/

/-- A feature named `01ccv` (C1's concrete input). -/
def c1FeatLower : Feature :=
  { properties := [("name", "01ccv")], geometry := .other }

/-- A feature named `01CCV` (C1's concrete input). -/
def c1FeatUpper : Feature :=
  { properties := [("name", "01CCV")], geometry := .other }

/-- The features named `B` and `A` for C2's concrete store (inserted in the
order `B`, `A`). -/
def c2FeatB : Feature := { properties := [("name", "B")], geometry := .other }

/-- See `c2FeatB`. -/
def c2FeatA : Feature := { properties := [("name", "A")], geometry := .other }

/-- The store holding `B` then `A`, in that insertion order. -/
def c2Store : Store :=
  [("B", { feature := c2FeatB, name := "B", centroid := none }),
   ("A", { feature := c2FeatA, name := "A", centroid := none })]

/-- The single unit-square feature of C4's witness. -/
def c4Feat : Feature :=
  { properties := [("name", "A")],
    geometry := .polygon [[[0, 0], [1, 0], [1, 1], [0, 1], [0, 0]]] }

/-- The store produced by C4's witness drag (centroid of the unit square
ring with its closing vertex repeated: 2/5). -/
def c4Store : Store :=
  [("A", { feature := c4Feat, name := "A", centroid := some { lat := some (2/5), lng := some (2/5) } })]

/-- The invariant: every key of the store is fixed by uppercasing. -/
def UpperKeys (s : Store) : Prop :=
  ∀ k ∈ storeKeys s, upperStr k = k

/-- The concrete input list of C10's witness, with a case-variant
duplicate name. -/
def c10FeatLower : Feature :=
  { properties := [("name", "01ccv")], geometry := .other }

/-- See `c10FeatLower`. -/
def c10FeatB : Feature :=
  { properties := [("name", "B")], geometry := .other }

/-- See `c10FeatLower`. -/
def c10FeatUpper : Feature :=
  { properties := [("name", "01CCV")], geometry := .other }

/-! ## Lemma kit: characters and strings -/

/-- Lemma: `Char.ofNat` of an uppercase-letter code decodes back to it. -/
theorem toNat_ofNat_upper (m : Nat) (h1 : 65 ≤ m) (h2 : m ≤ 90) :
    (Char.ofNat m).toNat = m := by
  interval_cases m <;> decide

/-- JS `toUpperCase` is idempotent on characters. -/
theorem charToUpper_idem (c : Char) : c.toUpper.toUpper = c.toUpper := by
  by_cases h : c.toNat ≥ 97 ∧ c.toNat ≤ 122
  · have h1 : c.toUpper = Char.ofNat (c.toNat - 32) := by
      unfold Char.toUpper
      simp [h]
    have h2 : (Char.ofNat (c.toNat - 32)).toNat = c.toNat - 32 :=
      toNat_ofNat_upper _ (by omega) (by omega)
    rw [h1]
    unfold Char.toUpper
    rw [h2]
    have hno : ¬ (c.toNat - 32 ≥ 97 ∧ c.toNat - 32 ≤ 122) := by omega
    rw [if_neg (by omega)]
  · have h1 : c.toUpper = c := by
      unfold Char.toUpper
      simp [h]
    rw [h1]
    exact h1

/-- JS `toUpperCase` is idempotent on strings. -/
theorem upperStr_idem (s : String) : upperStr (upperStr s) = upperStr s := by
  simp only [upperStr, List.map_map]
  exact congrArg String.mk (List.map_congr_left (fun c _ => charToUpper_idem c))

/-- Uppercasing preserves (non-)emptiness. -/
theorem upperStr_ne_empty {s : String} (h : s ≠ "") : upperStr s ≠ "" := by
  rcases s with ⟨d⟩
  cases d with
  | nil => exact absurd rfl h
  | cons c cs =>
    intro he
    have : (List.map Char.toUpper (c :: cs)) = ([] : List Char) :=
      congrArg String.data he
    simp at this

/-- Lemma: `jsOrStr` never returns the empty string if its fallback is non-empty. -/
theorem jsOrStr_ne_empty (a : Option String) {b : String} (hb : b ≠ "") :
    jsOrStr a b ≠ "" := by
  unfold jsOrStr
  match a with
  | none => exact hb
  | some s =>
    by_cases hs : s = ""
    · simp [hs, hb]
    · simp [hs]

/-- Lemma: `getGridName` is never falsy: the chain falls back to `Grid`. -/
theorem getGridName_ne_empty (f : Feature) : getGridName f ≠ "" := by
  unfold getGridName
  exact jsOrStr_ne_empty _ (jsOrStr_ne_empty _ (jsOrStr_ne_empty _
    (jsOrStr_ne_empty _ (jsOrStr_ne_empty _ (by decide)))))

/-- The selection key of a feature is never empty. -/
theorem upperName_ne_empty (f : Feature) : upperName f ≠ "" :=
  upperStr_ne_empty (getGridName_ne_empty f)

/-! ## Lemma kit: the store as a JS Map -/

/-- Key membership is exactly `map.has`. -/
theorem mapHas_iff_mem_storeKeys (s : Store) (k : String) :
    mapHas s k = true ↔ k ∈ storeKeys s := by
  induction s with
  | nil => simp [mapHas, storeKeys]
  | cons p rest ih =>
    simp only [mapHas, List.any_cons, storeKeys, List.map_cons, List.mem_cons] at *
    constructor
    · intro h
      rcases Bool.or_eq_true_iff.mp h with h1 | h2
      · exact Or.inl (of_decide_eq_true h1).symm
      · exact Or.inr (ih.mp h2)
    · intro h
      rcases h with h1 | h2
      · exact Bool.or_eq_true_iff.mpr (Or.inl (decide_eq_true h1.symm))
      · exact Bool.or_eq_true_iff.mpr (Or.inr (ih.mpr h2))

/-- Lemma: `map.set` key membership. -/
theorem mem_storeKeys_mapSet (s : Store) (k : String) (v : Entry)
    (k' : String) :
    k' ∈ storeKeys (mapSet s k v) ↔ k' ∈ storeKeys s ∨ k' = k := by
  induction s with
  | nil => simp [mapSet, storeKeys]
  | cons p rest ih =>
    by_cases hpk : p.1 = k
    · simp only [mapSet, if_pos hpk, storeKeys, List.map_cons, List.mem_cons]
      rw [hpk]
      tauto
    · simp only [mapSet, if_neg hpk, storeKeys, List.map_cons, List.mem_cons]
      rw [show storeKeys (mapSet rest k v) =
        List.map (fun p => p.1) (mapSet rest k v) from rfl] at ih
      rw [show storeKeys rest = List.map (fun p => p.1) rest from rfl] at ih
      tauto

/-- Lemma: `map.get` after `map.set` at the same key. -/
theorem mapGet_mapSet_self (s : Store) (k : String) (v : Entry) :
    mapGet (mapSet s k v) k = some v := by
  induction s with
  | nil => simp [mapSet, mapGet]
  | cons p rest ih =>
    by_cases hpk : p.1 = k
    · simp [mapSet, if_pos hpk, mapGet]
    · simp only [mapSet, if_neg hpk, mapGet, List.find?]
      rw [decide_eq_false hpk]
      exact ih

/-- Lemma: `map.get` after `map.set` at a different key. -/
theorem mapGet_mapSet_ne (s : Store) (k : String) (v : Entry) (k' : String)
    (h : k' ≠ k) : mapGet (mapSet s k v) k' = mapGet s k' := by
  induction s with
  | nil =>
    simp only [mapSet, mapGet, List.find?]
    rw [decide_eq_false (fun he => h he.symm)]
  | cons p rest ih =>
    by_cases hpk : p.1 = k
    · simp only [mapSet, if_pos hpk, mapGet, List.find?]
      rw [decide_eq_false (fun he => h he.symm),
        decide_eq_false (fun he => h (hpk ▸ he).symm)]
    · by_cases hpk' : p.1 = k'
      · simp only [mapSet, if_neg hpk, mapGet, List.find?]
        rw [decide_eq_true hpk']
      · simp only [mapSet, if_neg hpk, mapGet, List.find?]
        rw [decide_eq_false hpk']
        exact ih

/-- Lemma: `map.delete` key membership. -/
theorem mem_storeKeys_mapDelete (s : Store) (k : String) (k' : String) :
    k' ∈ storeKeys (mapDelete s k) ↔ k' ∈ storeKeys s ∧ k' ≠ k := by
  simp only [mapDelete, storeKeys]
  constructor
  · intro h
    rcases List.mem_map.mp h with ⟨p, hp, hpe⟩
    have hmem := (List.mem_filter.mp hp).1
    have hne : p.1 ≠ k := of_decide_eq_true (List.mem_filter.mp hp).2
    exact ⟨List.mem_map.mpr ⟨p, hmem, hpe⟩, hpe ▸ hne⟩
  · intro ⟨h1, h2⟩
    rcases List.mem_map.mp h1 with ⟨p, hp, hpe⟩
    exact List.mem_map.mpr ⟨p, List.mem_filter.mpr
      ⟨hp, decide_eq_true (hpe ▸ h2)⟩, hpe⟩

/-- After `map.delete k` the key `k` is gone. -/
theorem mapHas_mapDelete_self (s : Store) (k : String) :
    mapHas (mapDelete s k) k = false := by
  rw [← Bool.not_eq_true, mapHas_iff_mem_storeKeys, mem_storeKeys_mapDelete]
  simp

/-- A fresh `map.set` appends; key membership in `mapHas` form. -/
theorem mapHas_mapSet (s : Store) (k : String) (v : Entry) (k' : String) :
    mapHas (mapSet s k v) k' = true ↔ mapHas s k' = true ∨ k' = k := by
  rw [mapHas_iff_mem_storeKeys, mapHas_iff_mem_storeKeys,
    mem_storeKeys_mapSet]

/-- Lemma: `map.set` preserves key distinctness. -/
theorem nodup_storeKeys_mapSet (s : Store) (k : String) (v : Entry)
    (h : (storeKeys s).Nodup) : (storeKeys (mapSet s k v)).Nodup := by
  induction s with
  | nil => simp [mapSet, storeKeys]
  | cons p rest ih =>
    simp only [storeKeys, List.map_cons, List.nodup_cons] at h
    by_cases hpk : p.1 = k
    · simp only [mapSet, if_pos hpk, storeKeys, List.map_cons,
        List.nodup_cons]
      exact ⟨hpk ▸ h.1, h.2⟩
    · simp only [mapSet, if_neg hpk, storeKeys, List.map_cons,
        List.nodup_cons]
      refine ⟨fun hmem => ?_, ih h.2⟩
      rcases (mem_storeKeys_mapSet rest k v p.1).mp hmem with h1 | h2
      · exact h.1 h1
      · exact hpk h2

/-! ## Lemma kit: `updateSelection` folds -/

/-- In replace mode `addFeature` always computes the centroid and sets the
entry (the name guard is dead code and the has-check is disabled). -/
theorem addFeature_true_eq (acc : Store) (f : Feature) :
    addFeature true acc f =
      (getPolygonCentroid f.geometry).bind (fun c =>
        Except.ok (mapSet acc (upperName f)
          { feature := f, name := getGridName f, centroid := c })) := by
  unfold addFeature
  rw [if_neg (getGridName_ne_empty f)]
  cases hc : getPolygonCentroid f.geometry with
  | error u => simp [hc, upperName, Bind.bind, Except.bind]
  | ok c => simp [hc, upperName, Bind.bind, Except.bind, pure, Except.pure]

/-- The replace-mode fold: key set, entry contents (last occurrence wins),
and key distinctness, relative to the accumulator. -/
theorem foldlM_addFeature_true (fs : List Feature) :
    ∀ acc s', fs.foldlM (addFeature true) acc = .ok s' →
      (∀ k, mapHas s' k = true ↔ k ∈ fs.map upperName ∨ mapHas acc k = true) ∧
      (∀ k e, mapGet s' k = some e →
        (match fs.reverse.find? (fun g => upperName g == k) with
         | some f => e.feature = f ∧ e.name = getGridName f
         | none => mapGet acc k = some e)) ∧
      ((storeKeys acc).Nodup → (storeKeys s').Nodup) := by
  induction fs with
  | nil =>
    intro acc s' h
    simp only [List.foldlM_nil, pure, Except.pure, Except.ok.injEq] at h
    subst h
    refine ⟨fun k => by simp, fun k e hg => ?_, fun hn => hn⟩
    simpa using hg
  | cons f fs ih =>
    intro acc s' h
    rw [List.foldlM_cons, addFeature_true_eq] at h
    cases hc : getPolygonCentroid f.geometry with
    | error u => rw [hc] at h; simp [Bind.bind, Except.bind] at h
    | ok c =>
      rw [hc] at h
      simp only [Except.bind, Bind.bind] at h
      set a1 := mapSet acc (upperName f)
        { feature := f, name := getGridName f, centroid := c } with ha1
      obtain ⟨ih1, ih2, ih3⟩ := ih a1 s' h
      refine ⟨fun k => ?_, fun k e hg => ?_, fun hn => ?_⟩
      · rw [ih1, ha1, mapHas_mapSet]
        simp only [List.map_cons, List.mem_cons]
        tauto
      · have hmatch := ih2 k e hg
        rw [List.reverse_cons, List.find?_append]
        cases hfind : fs.reverse.find? (fun g => upperName g == k) with
        | some f0 =>
          rw [hfind] at hmatch
          simpa using hmatch
        | none =>
          rw [hfind] at hmatch
          by_cases hk : k = upperName f
          · subst hk
            rw [ha1, mapGet_mapSet_self] at hmatch
            simp only [Option.or, List.find?, beq_self_eq_true, if_pos]
            cases hmatch
            exact ⟨rfl, rfl⟩
          · rw [ha1, mapGet_mapSet_ne acc _ _ _ hk] at hmatch
            have hpf : (upperName f == k) = false :=
              beq_eq_false_iff_ne.mpr (fun he => hk he.symm)
            simp only [Option.or, List.find?, hpf]
            exact hmatch
      · exact ih3 (nodup_storeKeys_mapSet acc _ _ hn)

/-- Lemma: `updateSelection` in replace mode on a non-empty list: the result has
exactly one entry per distinct uppercased name of the list, each holding the
last feature of the list with that name. -/
theorem updateSelection_replace (fs : List Feature) (s s' : Store)
    (hne : fs ≠ []) (h : updateSelection fs true s = .ok s') :
    (∀ k, mapHas s' k = true ↔ k ∈ fs.map upperName) ∧
    (∀ k e, mapGet s' k = some e →
      ∃ f, fs.reverse.find? (fun g => upperName g == k) = some f ∧
        e.feature = f ∧ e.name = getGridName f) ∧
    (storeKeys s').Nodup := by
  unfold updateSelection at h
  rw [if_neg hne] at h
  obtain ⟨h1, h2, h3⟩ := foldlM_addFeature_true fs [] s' h
  refine ⟨fun k => ?_, fun k e hg => ?_, h3 (by simp [storeKeys])⟩
  · rw [h1 k]
    simp [mapHas]
  · have hmatch := h2 k e hg
    cases hfind : fs.reverse.find? (fun g => upperName g == k) with
    | some f0 =>
      rw [hfind] at hmatch
      exact ⟨f0, rfl, hmatch⟩
    | none =>
      rw [hfind] at hmatch
      simp [mapGet] at hmatch

/-- The add-mode fold: keys of the result are the accumulator's keys plus
the uppercased names of the folded features. -/
theorem foldlM_addFeature_false (fs : List Feature) :
    ∀ acc s', fs.foldlM (addFeature false) acc = .ok s' →
      ∀ k, mapHas s' k = true ↔ k ∈ fs.map upperName ∨ mapHas acc k = true := by
  induction fs with
  | nil =>
    intro acc s' h k
    simp only [List.foldlM_nil, pure, Except.pure, Except.ok.injEq] at h
    subst h
    simp
  | cons f fs ih =>
    intro acc s' h
    rw [List.foldlM_cons] at h
    by_cases hhas : mapHas acc (upperName f) = true
    · have hstep : addFeature false acc f = .ok acc := by
        unfold addFeature
        rw [if_neg (getGridName_ne_empty f)]
        simp only [Bool.not_false, Bool.true_and]
        rw [show upperStr (getGridName f) = upperName f from rfl, hhas]
        rfl
      rw [hstep] at h
      simp only [Except.bind, Bind.bind] at h
      intro k
      rw [ih acc s' h k]
      simp only [List.map_cons, List.mem_cons]
      constructor
      · tauto
      · rintro (h1 | h2)
        · rcases h1 with h1 | h1
          · exact Or.inr (h1 ▸ hhas)
          · exact Or.inl h1
        · exact Or.inr h2
    · have hstep : ∀ c, getPolygonCentroid f.geometry = .ok c →
          addFeature false acc f = .ok (mapSet acc (upperName f)
            { feature := f, name := getGridName f, centroid := c }) := by
        intro c hc
        unfold addFeature
        rw [if_neg (getGridName_ne_empty f)]
        simp only [Bool.not_false, Bool.true_and]
        rw [show upperStr (getGridName f) = upperName f from rfl]
        rw [Bool.not_eq_true] at hhas
        rw [hhas]
        simp [hc, Bind.bind, Except.bind, pure, Except.pure]
      cases hc : getPolygonCentroid f.geometry with
      | error u =>
        have : addFeature false acc f = .error u := by
          unfold addFeature
          rw [if_neg (getGridName_ne_empty f)]
          simp only [Bool.not_false, Bool.true_and]
          rw [show upperStr (getGridName f) = upperName f from rfl]
          rw [Bool.not_eq_true] at hhas
          rw [hhas]
          simp [hc, Bind.bind, Except.bind]
        rw [this] at h
        simp [Bind.bind, Except.bind] at h
      | ok c =>
        rw [hstep c hc] at h
        simp only [Except.bind, Bind.bind] at h
        intro k
        rw [ih _ s' h k, mapHas_mapSet]
        simp only [List.map_cons, List.mem_cons]
        tauto

/-- Lemma: `updateSelection` in add mode: the keys of the result are the old keys
together with the uppercased names of the added features. -/
theorem updateSelection_add (fs : List Feature) (s s' : Store)
    (h : updateSelection fs false s = .ok s') :
    ∀ k, mapHas s' k = true ↔ k ∈ fs.map upperName ∨ mapHas s k = true := by
  unfold updateSelection at h
  by_cases hne : fs = []
  · subst hne
    rw [show (if ([] : List Feature) = [] then pure s
      else (if false then ([] : Store) else s) |>
        fun s0 => List.foldlM (addFeature false) s0 []) = Except.ok s from rfl] at h
    cases h
    simp
  · rw [if_neg hne] at h
    exact foldlM_addFeature_false fs s s' h

/-! ## Claim C1 -/

/-- C1, counterexample.  The claim says replace-mode `updateSelection` keeps
the FIRST feature of the list for each uppercased name; on the list
`[01ccv, 01CCV]` the single resulting entry holds the LAST feature
(`Map.set` overwrites), so first-occurrence-wins is refuted. -/
theorem C1_counterexample :
    updateSelection [c1FeatLower, c1FeatUpper] true [] =
      Except.ok [("01CCV",
        { feature := c1FeatUpper, name := "01CCV", centroid := none })] ∧
    c1FeatUpper ≠ c1FeatLower := by
  constructor
  · rfl
  · decide

/-- C1 (amended): for every non-empty feature list, `updateSelection` with
`replace = true` (when it returns without throwing) leaves the store with
exactly one entry per distinct uppercased name occurring in the list — the
keys are distinct and are exactly the uppercased names — and each entry
holds the LAST feature of the list with that uppercased name
(last-occurrence-wins), carrying that feature's original-case name.
(An empty list returns early and leaves the store untouched.) -/
theorem C1_replaceAll_lastWins (fs : List Feature) (s s' : Store)
    (hne : fs ≠ []) (h : updateSelection fs true s = .ok s') :
    (storeKeys s').Nodup ∧
    (∀ k, mapHas s' k = true ↔ k ∈ fs.map upperName) ∧
    (∀ k e, mapGet s' k = some e →
      ∃ f, fs.reverse.find? (fun g => upperName g == k) = some f ∧
        e.feature = f ∧ e.name = getGridName f) := by
  obtain ⟨h1, h2, h3⟩ := updateSelection_replace fs s s' hne h
  exact ⟨h3, h1, h2⟩

/-- C1, witness: the amended theorem applied to the concrete duplicate-name
list of the counterexample. -/
theorem C1_witness :
    (storeKeys [("01CCV",
      { feature := c1FeatUpper, name := "01CCV", centroid := none })]).Nodup ∧
    (∀ k, mapHas [("01CCV",
      { feature := c1FeatUpper, name := "01CCV", centroid := none })] k = true ↔
      k ∈ [c1FeatLower, c1FeatUpper].map upperName) ∧
    (∀ k e, mapGet [("01CCV",
      { feature := c1FeatUpper, name := "01CCV", centroid := none })] k = some e →
      ∃ f, [c1FeatLower, c1FeatUpper].reverse.find?
          (fun g => upperName g == k) = some f ∧
        e.feature = f ∧ e.name = getGridName f) :=
  C1_replaceAll_lastWins [c1FeatLower, c1FeatUpper] [] _ (by decide) rfl

/-! ## Claim C2 -/

/-- A successful `mapExcept` yields one output per input, in order, each the
successful image of the corresponding input. -/
theorem mapExcept_ok_char (g : Entry → Except Unit String) :
    ∀ (l : List Entry) (r : List String), mapExcept g l = .ok r →
      r.length = l.length ∧
      ∀ i (hi : i < l.length) (hr : i < r.length),
        g (l.get ⟨i, hi⟩) = .ok (r.get ⟨i, hr⟩) := by
  intro l
  induction l with
  | nil =>
    intro r h
    cases h
    exact ⟨rfl, fun i hi => by simp at hi⟩
  | cons e rest ih =>
    intro r h
    unfold mapExcept at h
    cases hg : g e with
    | error u => rw [hg] at h; simp [Bind.bind, Except.bind] at h
    | ok v =>
      rw [hg] at h
      simp only [Bind.bind, Except.bind] at h
      cases hrest : mapExcept g rest with
      | error u => rw [hrest] at h; simp at h
      | ok vs =>
        rw [hrest] at h
        simp only [pure, Except.pure, Except.ok.injEq] at h
        subst h
        obtain ⟨hlen, hidx⟩ := ih vs hrest
        refine ⟨by simp [hlen], fun i hi hr => ?_⟩
        cases i with
        | zero => simpa using hg
        | succ j =>
          simp only [List.get_cons_succ]
          exact hidx j (by simpa using hi) (by simpa using hr)

/-- C2, counterexample.  The claim says the CSV data rows appear in the
lexicographically sorted order of the selected names (the share order); on
the reachable store that selected `B` then `A`, the rows come out in
insertion order (`B` first) while the sorted share order is `A`, `B`. -/
theorem C2_counterexample :
    updateSelection [c2FeatB, c2FeatA] true [] = Except.ok c2Store ∧
    csvRows c2Store = Except.ok ["B,,", "A,,"] ∧
    getSelectedNamesSorted c2Store = ["A", "B"] ∧
    ["B,,", "A,,"] ≠ ["A,,", "B,,"] := by
  refine ⟨rfl, rfl, by decide, by decide⟩

/-- C2 (amended): for every selection, `downloadSelectionAsCSV` emits
exactly one data row per selected entry, and the rows appear in the store's
insertion order (the order of `getSelectedEntries`), each row produced from
the entry at the same position — not in the sorted-name share order. -/
theorem C2_one_row_per_entry (s : Store) (rows : List String)
    (h : csvRows s = .ok rows) :
    rows.length = (getSelectedEntries s).length ∧
    ∀ i (hi : i < (getSelectedEntries s).length) (hr : i < rows.length),
      csvRowLine (csvPropertyKeys (getSelectedEntries s))
        ((getSelectedEntries s).get ⟨i, hi⟩) = .ok (rows.get ⟨i, hr⟩) :=
  mapExcept_ok_char _ (getSelectedEntries s) rows h

/-- C2, witness: the amended theorem applied to the concrete two-entry
store. -/
theorem C2_witness :
    (["B,,", "A,,"] : List String).length =
      (getSelectedEntries c2Store).length ∧
    ∀ i (hi : i < (getSelectedEntries c2Store).length)
      (hr : i < (["B,,", "A,,"] : List String).length),
      csvRowLine (csvPropertyKeys (getSelectedEntries c2Store))
        ((getSelectedEntries c2Store).get ⟨i, hi⟩) =
        .ok ((["B,,", "A,,"] : List String).get ⟨i, hr⟩) :=
  C2_one_row_per_entry c2Store ["B,,", "A,,"] rfl

/-! ## Claim C3 -/

/-- Splitting a comma-free character list is the singleton. -/
theorem splitCommaChars_no_comma (l : List Char) (h : ',' ∉ l) :
    splitCommaChars l = [l] := by
  induction l with
  | nil => rfl
  | cons c cs ih =>
    have hc : c ≠ ',' := fun he => h (he ▸ List.mem_cons_self c cs)
    have hcs : ',' ∉ cs := fun hm => h (List.mem_cons_of_mem c hm)
    simp only [splitCommaChars, if_neg hc, ih hcs]

/-- The cons unfolding of `splitCommaChars`. -/
theorem splitCommaChars_cons (c : Char) (cs : List Char) :
    splitCommaChars (c :: cs) =
      if c = ',' then [] :: splitCommaChars cs
      else match splitCommaChars cs with
        | [] => [[c]]
        | h :: t => (c :: h) :: t := rfl

/-- Splitting a comma-free prefix, a comma and a rest. -/
theorem splitCommaChars_append (l rest : List Char) (h : ',' ∉ l) :
    splitCommaChars (l ++ ',' :: rest) = l :: splitCommaChars rest := by
  induction l with
  | nil => simp [splitCommaChars]
  | cons c cs ih =>
    have hc : c ≠ ',' := fun he => h (he ▸ List.mem_cons_self c cs)
    have hcs : ',' ∉ cs := fun hm => h (List.mem_cons_of_mem c hm)
    rw [List.cons_append, splitCommaChars_cons, ih hcs, if_neg hc]

/-- Lemma: `split(",")` inverts `join(",")` on a non-empty list of comma-free
strings. -/
theorem splitComma_joinComma (us : List String) (hne : us ≠ [])
    (h : ∀ u ∈ us, ',' ∉ u.data) : splitComma (joinComma us) = us := by
  induction us with
  | nil => exact absurd rfl hne
  | cons x xs ih =>
    cases xs with
    | nil =>
      simp only [joinComma, splitComma]
      rw [splitCommaChars_no_comma x.data (h x (List.mem_cons_self x []))]
      simp
    | cons y ys =>
      have hx : ',' ∉ x.data := h x (List.mem_cons_self x (y :: ys))
      have hrest : ∀ u ∈ y :: ys, ',' ∉ u.data :=
        fun u hu => h u (List.mem_cons_of_mem x hu)
      have hjoin : (joinComma (x :: y :: ys)).data =
          x.data ++ ',' :: (joinComma (y :: ys)).data := by
        show (x ++ "," ++ joinComma (y :: ys)).data = _
        simp [String.data_append]
      simp only [splitComma, hjoin, splitCommaChars_append x.data _ hx,
        List.map_cons]
      have := ih (by simp) hrest
      simp only [splitComma] at this
      rw [this]

/-- The `grids`-decoding fold restores a list of already-normalized pieces
(trim-stable, non-empty, uppercase-stable). -/
theorem foldTrimUpper_eq (l : List String)
    (h : ∀ p ∈ l, jsTrim p = p ∧ p ≠ "" ∧ upperStr p = p) :
    ∀ acc, l.foldl (fun acc piece =>
      let trimmed := jsTrim piece
      if trimmed.length > 0 then acc ++ [upperStr trimmed] else acc) acc =
      acc ++ l := by
  induction l with
  | nil => intro acc; simp
  | cons p ps ih =>
    intro acc
    obtain ⟨ht, hne, hu⟩ := h p (List.mem_cons_self p ps)
    have hlen : (jsTrim p).length > 0 := by
      rw [ht]
      have : p.data ≠ [] := by
        intro hd
        exact hne (by cases p; simp at hd; simp [hd])
      cases hp : p.data with
      | nil => exact absurd hp this
      | cons c cs => show p.data.length > 0; simp [hp]
    simp only [List.foldl_cons, if_pos hlen, ht, hu]
    rw [ih (fun q hq => h q (List.mem_cons_of_mem p hq))]
    rw [ht] at hlen
    rw [if_pos hlen]
    simp

/-- Lemma: `insertSorted` is a permutation of consing. -/
theorem insertSorted_perm (x : String) (l : List String) :
    (insertSorted x l).Perm (x :: l) := by
  induction l with
  | nil => simp [insertSorted]
  | cons y ys ih =>
    simp only [insertSorted]
    by_cases hle : lexLe x y = true
    · rw [if_pos hle]
    · rw [if_neg hle]
      exact (List.Perm.cons y ih).trans (List.Perm.swap x y ys)

/-- Lemma: `sortStrings` permutes its input. -/
theorem sortStrings_perm (l : List String) : (sortStrings l).Perm l := by
  induction l with
  | nil => simp [sortStrings]
  | cons x xs ih =>
    simp only [sortStrings, List.foldr_cons]
    exact (insertSorted_perm x _).trans (List.Perm.cons x ih)

/-- Membership in the de-duplication accumulator loop. -/
theorem mem_jsDedupAux (l : List String) :
    ∀ seen x, x ∈ jsDedupAux seen l ↔ x ∈ l ∧ x ∉ seen := by
  induction l with
  | nil => intro seen x; simp [jsDedupAux]
  | cons y ys ih =>
    intro seen x
    by_cases hy : y ∈ seen
    · simp only [jsDedupAux, if_pos hy, ih]
      constructor
      · rintro ⟨h1, h2⟩; exact ⟨List.mem_cons_of_mem y h1, h2⟩
      · rintro ⟨h1, h2⟩
        rcases List.mem_cons.mp h1 with he | hm
        · exact absurd (he ▸ hy) h2
        · exact ⟨hm, h2⟩
    · simp only [jsDedupAux, if_neg hy, List.mem_cons, ih]
      constructor
      · rintro (he | ⟨h1, h2⟩)
        · exact ⟨Or.inl he, he ▸ hy⟩
        · exact ⟨Or.inr h1, fun hs => h2 (Or.inr hs)⟩
      · rintro ⟨he | hm, h2⟩
        · exact Or.inl he
        · by_cases hx : x = y
          · exact Or.inl hx
          · exact Or.inr ⟨hm, fun hs => hs.elim hx h2⟩

/-- The de-duplication loop yields distinct elements. -/
theorem jsDedupAux_nodup (l : List String) :
    ∀ seen, (jsDedupAux seen l).Nodup := by
  induction l with
  | nil => intro seen; simp [jsDedupAux]
  | cons y ys ih =>
    intro seen
    by_cases hy : y ∈ seen
    · simpa [jsDedupAux, if_pos hy] using ih seen
    · simp only [jsDedupAux, if_neg hy, List.nodup_cons]
      refine ⟨fun hm => ?_, ih (y :: seen)⟩
      exact ((mem_jsDedupAux ys (y :: seen) y).mp hm).2 (List.mem_cons_self y seen)

/-- Lemma: `jsDedup` output is distinct. -/
theorem jsDedup_nodup (l : List String) : (jsDedup l).Nodup :=
  jsDedupAux_nodup l []

/-- De-duplicating an already distinct, seen-disjoint list is the
identity. -/
theorem jsDedupAux_of_nodup (l : List String) :
    ∀ seen, l.Nodup → (∀ x ∈ l, x ∉ seen) → jsDedupAux seen l = l := by
  induction l with
  | nil => intro seen _ _; rfl
  | cons y ys ih =>
    intro seen hnd hdisj
    have hy : y ∉ seen := hdisj y (List.mem_cons_self y ys)
    simp only [jsDedupAux, if_neg hy]
    rw [ih (y :: seen) (List.nodup_cons.mp hnd).2]
    intro x hx
    intro hs
    rcases List.mem_cons.mp hs with he | hm
    · exact (List.nodup_cons.mp hnd).1 (he ▸ hx)
    · exact hdisj x (List.mem_cons_of_mem y hx) hm

/-- Lemma: `jsDedup` fixes distinct lists. -/
theorem jsDedup_of_nodup (l : List String) (h : l.Nodup) : jsDedup l = l :=
  jsDedupAux_of_nodup l [] h (by simp)

/-- The encoder's normalized name list is distinct. -/
theorem sortedUpperNames_nodup (names : List String) :
    (sortedUpperNames names).Nodup :=
  (sortStrings_perm _).nodup_iff.mpr (jsDedup_nodup _)

/-- Every normalized name is the uppercasing of an input name. -/
theorem mem_sortedUpperNames (names : List String) (x : String)
    (h : x ∈ sortedUpperNames names) : ∃ n ∈ names, x = upperStr n := by
  have h1 : x ∈ jsDedup (names.map upperStr) := (sortStrings_perm _).mem_iff.mp h
  have h2 : x ∈ names.map upperStr := ((mem_jsDedupAux _ _ _).mp h1).1
  rcases List.mem_map.mp h2 with ⟨n, hn, he⟩
  exact ⟨n, hn, he.symm⟩

/-- A non-empty string has positive length. -/
theorem strLength_pos {s : String} (h : s ≠ "") : 0 < s.length := by
  rcases s with ⟨d⟩
  cases d with
  | nil => exact absurd rfl h
  | cons c cs => show 0 < (String.mk (c :: cs)).data.length; simp

/-- C3, counterexample.  The claim quantifies over every set of selected
names; for the two names `A,B` and `C` the encoder writes
`grids=A,B,C` and the comma-splitting decoder recovers three names, so the
round trip does not yield the normalized input set. -/
theorem C3_counterexample :
    decodedNames (updateAddressBarWithSelection ["A,B", "C"]) ≠
      sortedUpperNames ["A,B", "C"] := by
  decide

/-- C3 (amended): for every list of 0, 1, or N selected names in which each
name is non-empty and uppercases to a string without commas and without
leading or trailing whitespace, decoding the URL query produced by encoding
the list yields exactly the uppercased, de-duplicated, sorted input set
(without the proviso the round trip can split a name at its commas or trim
it). -/
theorem C3_roundTrip_normalized (names : List String)
    (h : ∀ n ∈ names, n ≠ "" ∧ jsTrim (upperStr n) = upperStr n ∧
      ',' ∉ (upperStr n).data) :
    decodedNames (updateAddressBarWithSelection names) =
      sortedUpperNames names := by
  have hu : ∀ x ∈ sortedUpperNames names,
      jsTrim x = x ∧ x ≠ "" ∧ upperStr x = x ∧ ',' ∉ x.data := by
    intro x hx
    rcases mem_sortedUpperNames names x hx with ⟨n, hn, he⟩
    obtain ⟨h1, h2, h3⟩ := h n hn
    subst he
    exact ⟨h2, upperStr_ne_empty h1, upperStr_idem n, h3⟩
  have hnd := sortedUpperNames_nodup names
  have henc : updateAddressBarWithSelection names =
      (match sortedUpperNames names with
       | [] => (none, none)
       | [x] => (some x, none)
       | xs => (none, some (joinComma xs))) := rfl
  rw [henc]
  cases hcase : sortedUpperNames names with
  | nil => rfl
  | cons x xs =>
    rw [hcase] at hu hnd
    cases xs with
    | nil =>
      obtain ⟨ht, hne2, hup, hc⟩ := hu x (List.mem_cons_self x [])
      show decodedNames (some x, none) = [x]
      unfold decodedNames getGridParamsFromUrl
      simp only []
      rw [if_neg hne2, ht, if_pos (strLength_pos hne2), hup]
      rfl
    | cons y ys =>
      have hall : ∀ u ∈ x :: y :: ys, ',' ∉ u.data :=
        fun u hmem => (hu u hmem).2.2.2
      have hclean : ∀ p ∈ x :: y :: ys,
          jsTrim p = p ∧ p ≠ "" ∧ upperStr p = p :=
        fun p hmem => ⟨(hu p hmem).1, (hu p hmem).2.1, (hu p hmem).2.2.1⟩
      have hjne : joinComma (x :: y :: ys) ≠ "" := by
        intro he
        have hd : (joinComma (x :: y :: ys)).data = ("" : String).data :=
          congrArg String.data he
        rw [show joinComma (x :: y :: ys) = x ++ "," ++ joinComma (y :: ys)
          from rfl] at hd
        simp [String.data_append] at hd
      show decodedNames (none, some (joinComma (x :: y :: ys))) = x :: y :: ys
      unfold decodedNames getGridParamsFromUrl namesFromGridsParam
      simp only []
      rw [if_neg hjne,
        splitComma_joinComma (x :: y :: ys) (by simp) hall,
        foldTrimUpper_eq (x :: y :: ys) hclean []]
      simp only [List.nil_append, List.append_nil]
      rw [jsDedup_of_nodup _ hnd]
      rw [if_neg (by simp : ¬(x :: y :: ys = []))]
      rfl

/-- C3, witness: the amended round trip applied to the concrete name list
`b`, `a`, `B`, which normalizes to `A`, `B`. -/
theorem C3_witness :
    decodedNames (updateAddressBarWithSelection ["b", "a", "B"]) =
      sortedUpperNames ["b", "a", "B"] :=
  C3_roundTrip_normalized ["b", "a", "B"] (by decide)

/-! ## Claim C4 -/

/-- The count step with the dead name guard removed. -/
theorem rectCountStep_eq (s : Store) (count : Nat) (f : Feature) :
    rectCountStep s count f =
      count + (if decide (s = []) || !mapHas s (upperName f) then 1 else 0) := by
  unfold rectCountStep
  rw [if_neg (getGridName_ne_empty f)]
  rfl

/-- A zero `newFeaturesCount` means every matched name was already
selected (and the accumulator was zero). -/
theorem foldl_rectCount_zero (s : Store) :
    ∀ (sel : List Feature) (init : Nat),
      sel.foldl (rectCountStep s) init = 0 →
      init = 0 ∧
        ∀ f ∈ sel, (decide (s = []) || !mapHas s (upperName f)) = false := by
  intro sel
  induction sel with
  | nil =>
    intro init h
    simp only [List.foldl_nil] at h
    exact ⟨h, by simp⟩
  | cons f fs ih =>
    intro init h
    rw [List.foldl_cons, rectCountStep_eq] at h
    obtain ⟨h1, h2⟩ := ih _ h
    by_cases hcond : (decide (s = []) || !mapHas s (upperName f)) = true
    · rw [if_pos hcond] at h1
      omega
    · rw [if_neg hcond] at h1
      refine ⟨by omega, fun g hg => ?_⟩
      rcases List.mem_cons.mp hg with he | hm
      · exact he ▸ Bool.not_eq_true _ ▸ (Bool.eq_false_iff.mpr hcond)
      · exact h2 g hm

/-- C4: a rectangle-drag commit whose matched feature set is non-empty
replaces the selection with exactly the matched names when the store was
empty, and otherwise unions the old keys with the matched names; it never
removes a previously selected name. -/
theorem C4_rect_replace_or_add (gridFeatures : List Feature)
    (st fin : ℚ × ℚ) (sel : List Feature) (s s' : Store)
    (hsel : findFeaturesInBounds gridFeatures (latLngBounds st fin) = .ok sel)
    (hne : sel ≠ [])
    (h : completeRectangleSelection true (some st) (some fin) gridFeatures s =
      .ok s') :
    (∀ k, mapHas s' k = true ↔
      (if s = [] then k ∈ sel.map upperName
       else k ∈ storeKeys s ∨ k ∈ sel.map upperName)) ∧
    (∀ k, k ∈ storeKeys s → k ∈ storeKeys s') := by
  unfold completeRectangleSelection at h
  rw [if_neg (not_not_intro rfl)] at h
  simp only [hsel, Bind.bind, Except.bind] at h
  rw [if_neg hne] at h
  by_cases hs : s = []
  · subst hs
    rw [if_neg (fun hcon => by simpa using hcon.1)] at h
    have h2 : updateSelection sel true [] = .ok s' := h
    obtain ⟨hkeys, _, _⟩ := updateSelection_replace sel [] s' hne h2
    refine ⟨fun k => ?_, fun k hk => by simp [storeKeys] at hk⟩
    rw [if_pos rfl]
    exact hkeys k
  · have hdec : decide (s = []) = false := decide_eq_false hs
    by_cases hcnt : sel.foldl (rectCountStep s) 0 = 0
    · rw [if_pos ⟨hdec, hcnt⟩] at h
      have hss : s' = s := by
        simpa [pure, Except.pure] using h.symm
      have hsub : ∀ f ∈ sel, mapHas s (upperName f) = true := by
        intro f hf
        have hz := (foldl_rectCount_zero s sel 0 hcnt).2 f hf
        rcases Bool.or_eq_false_iff.mp hz with ⟨_, hnot⟩
        simpa using hnot
      rw [hss]
      refine ⟨fun k => ?_, fun k hk => hk⟩
      rw [if_neg hs]
      constructor
      · intro hk
        exact Or.inl ((mapHas_iff_mem_storeKeys s k).mp hk)
      · rintro (hk | hk)
        · exact (mapHas_iff_mem_storeKeys s k).mpr hk
        · rcases List.mem_map.mp hk with ⟨f, hf, he⟩
          exact he ▸ hsub f hf
    · rw [if_neg (fun hcon => hcnt hcon.2)] at h
      rw [hdec] at h
      have hkeys := updateSelection_add sel s s' h
      refine ⟨fun k => ?_, fun k hk => ?_⟩
      · rw [if_neg hs, hkeys k, mapHas_iff_mem_storeKeys]
        tauto
      · rw [← mapHas_iff_mem_storeKeys]
        rw [hkeys k]
        exact Or.inr ((mapHas_iff_mem_storeKeys s k).mpr hk)

/-- C4, witness: the theorem applied to a concrete drag over the unit
square starting from the empty store. -/
theorem C4_witness :
    (∀ k, mapHas c4Store k = true ↔
      (if ([] : Store) = [] then k ∈ [c4Feat].map upperName
       else k ∈ storeKeys ([] : Store) ∨ k ∈ [c4Feat].map upperName)) ∧
    (∀ k, k ∈ storeKeys ([] : Store) → k ∈ storeKeys c4Store) :=
  C4_rect_replace_or_add [c4Feat] (0, 0) (2, 2) [c4Feat] [] c4Store
    (by norm_num +decide [findFeaturesInBounds, doesFeatureIntersectBounds,
      isPolygonIntersectingBounds, latLngBounds, rqMin, rqMax, c4Feat,
      dedupeFeaturesByName, dedupeAux, getGridName, lookupProp, jsOrStr,
      upperStr, Bind.bind, Except.bind, pure, Except.pure])
    (by decide)
    (by norm_num +decide [completeRectangleSelection, findFeaturesInBounds,
      doesFeatureIntersectBounds, isPolygonIntersectingBounds, latLngBounds,
      rqMin, rqMax, c4Feat, c4Store, dedupeFeaturesByName, dedupeAux,
      getGridName, lookupProp, jsOrStr, upperStr, updateSelection, addFeature,
      getPolygonCentroid, centroidOfRing, jdiv, mapSet, mapHas,
      Bind.bind, Except.bind, pure, Except.pure])

/-! ## Claim C5 -/

/-- Lemma: `classifyRemove` on a selected candidate stages its key. -/
theorem classifyRemove_of_has (s : Store) (f : Feature)
    (hH : mapHas s (upperStr (getGridName f)) = true) :
    classifyRemove s f = some (upperName f) := by
  unfold classifyRemove
  rw [if_neg (getGridName_ne_empty f)]
  simp only [hH, if_true]
  rfl

/-- Lemma: `classifyRemove` on an unselected candidate stages nothing. -/
theorem classifyRemove_of_not_has (s : Store) (f : Feature)
    (hH : mapHas s (upperStr (getGridName f)) = false) :
    classifyRemove s f = none := by
  unfold classifyRemove
  rw [if_neg (getGridName_ne_empty f)]
  simp only [hH]
  rfl

/-- Lemma: `classifyAdd` on a selected candidate stages nothing. -/
theorem classifyAdd_of_has (s : Store) (f : Feature)
    (hH : mapHas s (upperStr (getGridName f)) = true) :
    classifyAdd s f = none := by
  unfold classifyAdd
  rw [if_neg (getGridName_ne_empty f)]
  simp only [hH, if_true]

/-- Lemma: `classifyAdd` on an unselected candidate stages its triple. -/
theorem classifyAdd_of_not_has (s : Store) (f : Feature)
    (hH : mapHas s (upperStr (getGridName f)) = false) :
    classifyAdd s f = some (f, getGridName f, upperName f) := by
  unfold classifyAdd
  rw [if_neg (getGridName_ne_empty f)]
  simp only [hH]
  rfl

/-- A plain (unsuppressed, no overlapping candidates) click on a feature
whose name is selected removes exactly that key. -/
theorem processGridClick_single_remove (f : Feature) (s : Store)
    (hH : mapHas s (upperName f) = true) :
    processGridClick f [] false s = .ok (mapDelete s (upperName f)) := by
  have hname := getGridName_ne_empty f
  have hHn : mapHas s (upperStr (getGridName f)) = true := hH
  unfold processGridClick toggleCandidates
  simp only [Bool.false_eq_true, if_false, List.any_nil,
    dedupeFeaturesByName, dedupeAux, if_neg hname, List.not_mem_nil,
    if_false, List.filterMap_cons, List.filterMap_nil,
    classifyRemove_of_has s f hHn, classifyAdd_of_has s f hHn,
    List.foldl_cons, List.foldl_nil, List.foldlM_cons, List.foldlM_nil,
    applyToggleRemove, hH, if_true]
  rw [if_neg (by simp : ¬([f] = [])),
    if_neg (by simp : ¬([upperName f] = [] ∧ True))]
  rfl

/-- A plain click on a feature whose name is not selected adds exactly that
key (with the computed centroid). -/
theorem processGridClick_single_add (f : Feature) (s : Store)
    (c : Option Centroid) (hH : mapHas s (upperName f) = false)
    (hc : getPolygonCentroid f.geometry = .ok c) :
    processGridClick f [] false s =
      .ok (mapSet s (upperName f)
        { feature := f, name := getGridName f, centroid := c }) := by
  have hname := getGridName_ne_empty f
  have hHn : mapHas s (upperStr (getGridName f)) = false := hH
  unfold processGridClick toggleCandidates
  simp only [Bool.false_eq_true, if_false, List.any_nil,
    dedupeFeaturesByName, dedupeAux, if_neg hname, List.not_mem_nil,
    if_false, List.filterMap_cons, List.filterMap_nil,
    classifyRemove_of_not_has s f hHn, classifyAdd_of_not_has s f hHn,
    List.foldl_cons, List.foldl_nil, List.foldlM_cons, List.foldlM_nil,
    applyToggleAdd, hH, hc, Bind.bind, Except.bind, pure, Except.pure]
  rw [if_neg (by simp : ¬([f] = []))]
  rfl

/-- C5: toggling a grid name by click (absent: added, present: removed) and
toggling it again restores the key set of the SelectionStore, for every
store state and every feature (the centroid hypothesis rules out the
geometry on which the source itself throws). -/
theorem C5_toggle_toggle_keys (s : Store) (f : Feature) (c : Option Centroid)
    (hc : getPolygonCentroid f.geometry = .ok c) :
    ∃ s1 s2, processGridClick f [] false s = .ok s1 ∧
      processGridClick f [] false s1 = .ok s2 ∧
      ∀ k, k ∈ storeKeys s2 ↔ k ∈ storeKeys s := by
  by_cases hH : mapHas s (upperName f) = true
  · have hu : upperName f ∈ storeKeys s := (mapHas_iff_mem_storeKeys s _).mp hH
    refine ⟨mapDelete s (upperName f), _,
      processGridClick_single_remove f s hH,
      processGridClick_single_add f _ c (mapHas_mapDelete_self s _) hc,
      fun k => ?_⟩
    rw [mem_storeKeys_mapSet, mem_storeKeys_mapDelete]
    by_cases hk : k = upperName f
    · subst hk; simpa using hu
    · simp [hk]
  · have hH' : mapHas s (upperName f) = false := by simpa using hH
    have hu : upperName f ∉ storeKeys s :=
      fun hm => hH ((mapHas_iff_mem_storeKeys s _).mpr hm)
    refine ⟨mapSet s (upperName f)
        { feature := f, name := getGridName f, centroid := c }, _,
      processGridClick_single_add f s c hH' hc,
      processGridClick_single_remove f _
        ((mapHas_mapSet s _ _ _).mpr (Or.inr rfl)),
      fun k => ?_⟩
    rw [mem_storeKeys_mapDelete, mem_storeKeys_mapSet]
    by_cases hk : k = upperName f
    · subst hk; simpa using hu
    · simp [hk]

/-- C5, witness: the double toggle applied to a concrete feature named `A`
on the empty store. -/
theorem C5_witness :
    ∃ s1 s2,
      processGridClick { properties := [("name", "A")], geometry := .other }
        [] false [] = .ok s1 ∧
      processGridClick { properties := [("name", "A")], geometry := .other }
        [] false s1 = .ok s2 ∧
      ∀ k, k ∈ storeKeys s2 ↔ k ∈ storeKeys ([] : Store) :=
  C5_toggle_toggle_keys []
    { properties := [("name", "A")], geometry := .other } none rfl

/-! ## Claim C6 -/

/-- C6, counterexample.  For the crossing viewport `west=170, east=-170`
the code pushes `L.latLngBounds` of the shifted corner points, and Leaflet
normalizes a bounds to `west = min, east = max` of the corners; since
`west - 360 > east - 360`, the pushed box is the corner-swapped
`[south, east-360]-[north, west-360]` (here west `-530`, east `-190`), and
the claimed `-360°` shifted copy of the viewport (west `-190`, east `-530`)
is not in the list. -/
theorem C6_counterexample :
    ({ south := 0, north := 10, west := -530, east := -190 } : Bounds) ∈
      getWrappedBounds { south := 0, north := 10, west := 170, east := -170 } ∧
    ({ south := 0, north := 10, west := -190, east := -530 } : Bounds) ∉
      getWrappedBounds
        { south := 0, north := 10, west := 170, east := -170 } := by
  constructor
  · norm_num +decide [getWrappedBounds, latLngBounds]
  · norm_num +decide [getWrappedBounds, latLngBounds]

/-- C6 (amended): for every antimeridian-crossing viewport (in geographic
range), the wrapped list contains the two split boxes
`[south,west]-[north,180]` and `[south,-180]-[north,east]`, and contains
the corner-normalized `±360°` boxes, whose west/east are the shifted east
and west SWAPPED (Leaflet's corner normalization, not true shifted copies
of the crossing box); and the visibility test reports a polygon straddling
longitude 180 as visible for the viewport `west=170, east=-170` because its
outer-ring bounding box intersects a box of that list. -/
theorem C6_wrap_and_visibility :
    (∀ b : Bounds, b.south ≤ b.north → -180 ≤ b.east → b.east < b.west →
      b.west ≤ 180 →
      ({ south := b.south, north := b.north, west := b.west, east := 180 } :
          Bounds) ∈ getWrappedBounds b ∧
      ({ south := b.south, north := b.north, west := -180, east := b.east } :
          Bounds) ∈ getWrappedBounds b ∧
      ({ south := b.south, north := b.north, west := b.east - 360,
          east := b.west - 360 } : Bounds) ∈ getWrappedBounds b ∧
      ({ south := b.south, north := b.north, west := b.east + 360,
          east := b.west + 360 } : Bounds) ∈ getWrappedBounds b) ∧
    featureIsVisible
      (getWrappedBounds
        { south := -10, north := 10, west := 170, east := -170 })
      (Geometry.polygon [[[178, 0], [182, 0], [182, 5], [178, 5],
        [178, 0]]]) = true := by
  constructor
  · intro b hsn he hew hw
    have h1 : latLngBounds (b.south, b.west) (b.north, 180) =
        { south := b.south, north := b.north, west := b.west, east := 180 } := by
      unfold latLngBounds
      rw [min_eq_left hsn, max_eq_right hsn, min_eq_left hw, max_eq_right hw]
    have h2 : latLngBounds (b.south, -180) (b.north, b.east) =
        { south := b.south, north := b.north, west := -180, east := b.east } := by
      unfold latLngBounds
      rw [min_eq_left hsn, max_eq_right hsn, min_eq_left he, max_eq_right he]
    have hml : b.east - 360 ≤ b.west - 360 := by linarith
    have hmr : b.east + 360 ≤ b.west + 360 := by linarith
    have h3 : latLngBounds (b.south, b.west - 360) (b.north, b.east - 360) =
        { south := b.south, north := b.north, west := b.east - 360,
          east := b.west - 360 } := by
      unfold latLngBounds
      rw [min_eq_left hsn, max_eq_right hsn, min_eq_right hml,
        max_eq_left hml]
    have h4 : latLngBounds (b.south, b.west + 360) (b.north, b.east + 360) =
        { south := b.south, north := b.north, west := b.east + 360,
          east := b.west + 360 } := by
      unfold latLngBounds
      rw [min_eq_left hsn, max_eq_right hsn, min_eq_right hmr,
        max_eq_left hmr]
    unfold getWrappedBounds
    rw [if_pos hew, h1, h2, h3, h4]
    refine ⟨?_, ?_, ?_, ?_⟩ <;> simp
  · norm_num +decide [featureIsVisible, getWrappedBounds, latLngBounds,
      isPolygonIntersectingBounds, rqMin, rqMax]

/-- C6, witness: the general wrap part applied to the crossing viewport
`south=0, north=10, west=170, east=-170`. -/
theorem C6_witness :
    ({ south := 0, north := 10, west := 170, east := 180 } : Bounds) ∈
      getWrappedBounds { south := 0, north := 10, west := 170, east := -170 } ∧
    ({ south := 0, north := 10, west := -180, east := -170 } : Bounds) ∈
      getWrappedBounds { south := 0, north := 10, west := 170, east := -170 } ∧
    ({ south := 0, north := 10, west := (-170 : ℚ) - 360,
        east := (170 : ℚ) - 360 } : Bounds) ∈
      getWrappedBounds { south := 0, north := 10, west := 170, east := -170 } ∧
    ({ south := 0, north := 10, west := (-170 : ℚ) + 360,
        east := (170 : ℚ) + 360 } : Bounds) ∈
      getWrappedBounds
        { south := 0, north := 10, west := 170, east := -170 } :=
  C6_wrap_and_visibility.1
    { south := 0, north := 10, west := 170, east := -170 }
    (by norm_num) (by norm_num) (by norm_num) (by norm_num)

/-! ## Claim C7 -/

/-- C7: the point-in-polygon test returns true only when the ray-cast test
holds on ring 0 (the outer boundary), and it returns false whenever the
ray-cast test holds on any subsequent ring (a hole), even if the point is
inside the outer ring. -/
theorem C7_outer_and_holes (p : ℚ × ℚ) (polygon : List Ring) :
    (isPointInPolygon p polygon = true →
      ∃ r0, polygon.head? = some r0 ∧ isPointInLinearRing p r0 = true) ∧
    (∀ r ∈ polygon.tail, isPointInLinearRing p r = true →
      isPointInPolygon p polygon = false) := by
  cases polygon with
  | nil =>
    exact ⟨fun h => by simp [isPointInPolygon] at h,
      fun r hr => by simp at hr⟩
  | cons outerRing holes =>
    constructor
    · intro h
      refine ⟨outerRing, rfl, ?_⟩
      by_contra hout
      simp only [isPointInPolygon] at h
      rw [if_pos hout] at h
      exact Bool.false_ne_true h
    · intro r hr hrin
      simp only [isPointInPolygon]
      by_cases hout : isPointInLinearRing p outerRing = true
      · have hr2 : r ∈ holes := hr
        rw [if_neg (not_not_intro hout),
          if_pos (List.any_eq_true.mpr ⟨r, hr2, hrin⟩)]
      · rw [if_pos hout]

set_option maxHeartbeats 2000000 in
/-- C7, witness: the hole clause applied to the point `(2,2)` inside both
the outer square `0..4` and the hole square `1..3`. -/
theorem C7_witness :
    isPointInPolygon (2, 2)
      [[[0, 0], [4, 0], [4, 4], [0, 4], [0, 0]],
       [[1, 1], [3, 1], [3, 3], [1, 3], [1, 1]]] = false :=
  (C7_outer_and_holes (2, 2)
      [[[0, 0], [4, 0], [4, 4], [0, 4], [0, 0]],
       [[1, 1], [3, 1], [3, 3], [1, 3], [1, 1]]]).2
    [[1, 1], [3, 1], [3, 3], [1, 3], [1, 1]] (by decide)
    (by
      simp only [isPointInLinearRing, List.zip, List.zipWith, List.getLastD,
        List.dropLast, List.foldl, rayCastStep, List.get?, reduceIte]
      norm_num [jgt, jlt, jadd, jsub, jmul, jdiv, jorNum, tieBreak]
      decide)

/-! ## Claim C8 -/

/-- C8, counterexample.  The claim says the centroid is null whenever the
outer ring has no usable coordinate pairs; but for the Polygon whose outer
ring is the single one-component position `[5]`, the filter leaves no valid
coordinate, the sums stay `0`, and the JS division `0/0` yields a NON-null
centroid with `NaN` components (`none` in the model) — a non-null result
whose lat and lng are not finite numbers. -/
theorem C8_counterexample :
    getPolygonCentroid (.polygon [[[5]]]) =
      Except.ok (some { lat := none, lng := none }) := by
  show Except.ok (centroidOfRing [[5]]) = _
  norm_num +decide [centroidOfRing, jdiv]

/-- C8 (amended): the centroid is null for a non-polygonal geometry and for
a missing or empty outer ring; a `MultiPolygon` with a non-empty polygon
list behaves as the Polygon of its first polygon, but with an EMPTY
coordinates array the source throws a `TypeError` instead of returning
null; and on a non-empty outer ring the result is always non-null — with
`NaN` (non-finite) components exactly when the ring holds no coordinate
pair of length at least 2, finite components otherwise. -/
theorem C8_centroid_cases :
    (getPolygonCentroid .other = .ok none) ∧
    (getPolygonCentroid (.multiPolygon []) = .error ()) ∧
    (∀ p ps, getPolygonCentroid (.multiPolygon (p :: ps)) =
      getPolygonCentroid (.polygon p)) ∧
    (∀ rings : List Ring, rings.head? = none →
      getPolygonCentroid (.polygon rings) = .ok none) ∧
    (∀ rings : List Ring, rings.head? = some [] →
      getPolygonCentroid (.polygon rings) = .ok none) ∧
    (∀ (rings : List Ring) (ring : Ring), rings.head? = some ring →
      ring ≠ [] →
      ((∀ c ∈ ring, c.length < 2) →
        getPolygonCentroid (.polygon rings) =
          .ok (some { lat := none, lng := none })) ∧
      ((∃ c ∈ ring, 2 ≤ c.length) →
        ∃ la lg : ℚ, getPolygonCentroid (.polygon rings) =
          .ok (some { lat := some la, lng := some lg }))) := by
  refine ⟨rfl, rfl, fun p ps => rfl, fun rings h => ?_, fun rings h => ?_,
    fun rings ring h hne => ⟨fun hshort => ?_, fun hlong => ?_⟩⟩
  · simp [getPolygonCentroid, h]
  · simp [getPolygonCentroid, h, centroidOfRing]
  · have hfilter : ring.filter (fun c => decide (2 ≤ c.length)) = [] :=
      List.filter_eq_nil_iff.mpr
        (fun c hc => by simpa using Nat.not_le_of_lt (hshort c hc))
    simp [getPolygonCentroid, h, centroidOfRing, hne, hfilter, jdiv]
  · rcases hlong with ⟨c0, hc0, hlen⟩
    have hmem : c0 ∈ ring.filter (fun c => decide (2 ≤ c.length)) :=
      List.mem_filter.mpr ⟨hc0, by simpa using hlen⟩
    have hfne : (ring.filter (fun c => decide (2 ≤ c.length))).length ≠ 0 :=
      fun hz => by
        rw [List.length_eq_zero] at hz
        rw [hz] at hmem
        simp at hmem
    have hcast : ((ring.filter (fun c => decide (2 ≤ c.length))).length : ℚ) ≠ 0 := by
      exact_mod_cast hfne
    refine ⟨((ring.filter (fun c => decide (2 ≤ c.length))).map
        (fun c => (c.drop 1).headD 0)).sum /
        ((ring.filter (fun c => decide (2 ≤ c.length))).length : ℚ),
      ((ring.filter (fun c => decide (2 ≤ c.length))).map
        (fun c => c.headD 0)).sum /
        ((ring.filter (fun c => decide (2 ≤ c.length))).length : ℚ), ?_⟩
    simp [getPolygonCentroid, h, centroidOfRing, hne, jdiv, hcast]

/-- C8, witness: the amended characterization applied at concrete geometry:
the usable ring `[[1,2],[3,4]]` yields a finite centroid. -/
theorem C8_witness :
    ∃ la lg : ℚ, getPolygonCentroid (.polygon [[[1, 2], [3, 4]]]) =
      .ok (some { lat := some la, lng := some lg }) :=
  ((C8_centroid_cases.2.2.2.2.2 [[[1, 2], [3, 4]]] [[1, 2], [3, 4]]
    rfl (by decide)).2 ⟨[1, 2], by decide, by decide⟩)

/-! ## Claim C9 -/

/-- Lemma: `map.set` with an uppercase-stable key preserves the invariant. -/
theorem upperKeys_mapSet (s : Store) (k : String) (v : Entry)
    (hk : upperStr k = k) (h : UpperKeys s) : UpperKeys (mapSet s k v) := by
  intro k' hk'
  rcases (mem_storeKeys_mapSet s k v k').mp hk' with h1 | h2
  · exact h k' h1
  · exact h2 ▸ hk

/-- Lemma: `map.delete` preserves the invariant. -/
theorem upperKeys_mapDelete (s : Store) (k : String) (h : UpperKeys s) :
    UpperKeys (mapDelete s k) :=
  fun k' hk' => h k' ((mem_storeKeys_mapDelete s k k').mp hk').1

/-- One `updateSelection` step preserves the invariant (the key written is
`name.toUpperCase()`). -/
theorem upperKeys_addFeature (rep : Bool) (s s' : Store) (f : Feature)
    (h : addFeature rep s f = .ok s') (hs : UpperKeys s) : UpperKeys s' := by
  unfold addFeature at h
  rw [if_neg (getGridName_ne_empty f)] at h
  by_cases hcase : (!rep && mapHas s (upperStr (getGridName f))) = true
  · rw [if_pos hcase] at h
    cases h
    exact hs
  · rw [if_neg hcase] at h
    cases hc : getPolygonCentroid f.geometry with
    | error u => rw [hc] at h; simp [Bind.bind, Except.bind] at h
    | ok c =>
      rw [hc] at h
      simp only [Bind.bind, Except.bind, pure, Except.pure,
        Except.ok.injEq] at h
      subst h
      exact upperKeys_mapSet s _ _ (upperStr_idem _) hs

/-- The `updateSelection` fold preserves the invariant. -/
theorem upperKeys_foldlM_addFeature (rep : Bool) (fs : List Feature) :
    ∀ s s', fs.foldlM (addFeature rep) s = .ok s' →
      UpperKeys s → UpperKeys s' := by
  induction fs with
  | nil =>
    intro s s' h hs
    simp only [List.foldlM_nil, pure, Except.pure, Except.ok.injEq] at h
    exact h ▸ hs
  | cons f fs ih =>
    intro s s' h hs
    rw [List.foldlM_cons] at h
    cases hstep : addFeature rep s f with
    | error u => rw [hstep] at h; simp [Bind.bind, Except.bind] at h
    | ok s1 =>
      rw [hstep] at h
      simp only [Bind.bind, Except.bind] at h
      exact ih s1 s' h (upperKeys_addFeature rep s s1 f hstep hs)

/-- The removal loop of `processGridClick` preserves the invariant. -/
theorem upperKeys_foldl_applyToggleRemove (ns : List String) :
    ∀ s, UpperKeys s → UpperKeys (ns.foldl applyToggleRemove s) := by
  induction ns with
  | nil => intro s hs; exact hs
  | cons n ns ih =>
    intro s hs
    rw [List.foldl_cons]
    refine ih _ ?_
    unfold applyToggleRemove
    by_cases hhas : mapHas s n = true
    · rw [if_pos hhas]
      exact upperKeys_mapDelete s n hs
    · rw [if_neg hhas]
      exact hs

/-- The addition loop of `processGridClick` preserves the invariant when
every staged key is uppercase-stable. -/
theorem upperKeys_foldlM_applyToggleAdd
    (ts : List (Feature × String × String)) :
    ∀ s s', ts.foldlM applyToggleAdd s = .ok s' →
      (∀ t ∈ ts, upperStr t.2.2 = t.2.2) → UpperKeys s → UpperKeys s' := by
  induction ts with
  | nil =>
    intro s s' h _ hs
    simp only [List.foldlM_nil, pure, Except.pure, Except.ok.injEq] at h
    exact h ▸ hs
  | cons t ts ih =>
    intro s s' h hts hs
    rw [List.foldlM_cons] at h
    cases hstep : applyToggleAdd s t with
    | error u => rw [hstep] at h; simp [Bind.bind, Except.bind] at h
    | ok s1 =>
      rw [hstep] at h
      simp only [Bind.bind, Except.bind] at h
      refine ih s1 s' h (fun t2 ht2 => hts t2 (List.mem_cons_of_mem t ht2)) ?_
      unfold applyToggleAdd at hstep
      by_cases hhas : mapHas s t.2.2 = true
      · rw [if_pos hhas] at hstep
        cases hstep
        exact hs
      · rw [if_neg hhas] at hstep
        cases hc : getPolygonCentroid t.1.geometry with
        | error u => rw [hc] at hstep; simp [Bind.bind, Except.bind] at hstep
        | ok c =>
          rw [hc] at hstep
          simp only [Bind.bind, Except.bind, pure, Except.pure,
            Except.ok.injEq] at hstep
          subst hstep
          exact upperKeys_mapSet s _ _ (hts t (List.mem_cons_self t ts)) hs

/-- C9: starting from the empty store, every store-mutating operation —
click toggle, `updateSelection` in add or replace mode, and removal by
name — preserves the invariant that every key equals its own uppercasing. -/
theorem C9_keys_uppercase :
    UpperKeys [] ∧
    (∀ f cands sup s s', processGridClick f cands sup s = .ok s' →
      UpperKeys s → UpperKeys s') ∧
    (∀ fs rep s s', updateSelection fs rep s = .ok s' →
      UpperKeys s → UpperKeys s') ∧
    (∀ n s, UpperKeys s → UpperKeys (removeGridFromSelection n s)) := by
  refine ⟨fun k hk => by simp [storeKeys] at hk,
    fun f cands sup s s' h hs => ?_,
    fun fs rep s s' h hs => ?_,
    fun n s hs => ?_⟩
  · unfold processGridClick at h
    split at h
    · cases h; exact hs
    · simp only [] at h
      split at h
      · cases h; exact hs
      · split at h
        · cases h; exact hs
        · refine upperKeys_foldlM_applyToggleAdd _ _ s' h ?_
            (upperKeys_foldl_applyToggleRemove _ s hs)
          intro t ht
          rcases List.mem_filterMap.mp ht with ⟨c, _, hphi⟩
          by_cases hhas : mapHas s (upperStr (getGridName c)) = true
          · rw [classifyAdd_of_has s c hhas] at hphi
            exact absurd hphi (by simp)
          · rw [classifyAdd_of_not_has s c (by simpa using hhas)] at hphi
            simp only [Option.some.injEq] at hphi
            rw [← hphi]
            exact upperStr_idem _
  · unfold updateSelection at h
    split at h
    · cases h; exact hs
    · by_cases hrep : rep = true
      · subst hrep
        exact upperKeys_foldlM_addFeature true fs _ s' h
          (fun k hk => by simp [storeKeys] at hk)
      · have hrep2 : rep = false := by simpa using hrep
        subst hrep2
        exact upperKeys_foldlM_addFeature false fs s s' h hs
  · unfold removeGridFromSelection
    by_cases hn : n = ""
    · rw [if_pos hn]
      exact hs
    · rw [if_neg hn]
      show UpperKeys
        (if mapHas s (upperStr n) = true then mapDelete s (upperStr n) else s)
      by_cases hhas : mapHas s (upperStr n) = true
      · rw [if_pos hhas]
        exact upperKeys_mapDelete s _ hs
      · rw [if_neg hhas]
        exact hs

/-- C9, witness: the `updateSelection` clause applied to a concrete add of
a lowercase-named feature onto the empty store. -/
theorem C9_witness :
    UpperKeys [("A",
      { feature := { properties := [("name", "a")], geometry := .other },
        name := "a", centroid := none })] :=
  C9_keys_uppercase.2.2.1
    [{ properties := [("name", "a")], geometry := .other }] false []
    [("A",
      { feature := { properties := [("name", "a")], geometry := .other },
        name := "a", centroid := none })]
    rfl C9_keys_uppercase.1

/-! ## Claim C10 -/

/-- The de-duplication loop returns a sublist of its input. -/
theorem dedupeAux_sublist (fs : List Feature) :
    ∀ seen, (dedupeAux seen fs).Sublist fs := by
  induction fs with
  | nil => intro seen; simp [dedupeAux]
  | cons f fs ih =>
    intro seen
    simp only [dedupeAux, if_neg (getGridName_ne_empty f)]
    by_cases hseen : upperStr (getGridName f) ∈ seen
    · rw [if_pos hseen]
      exact (ih seen).cons f
    · rw [if_neg hseen]
      exact (ih _).cons₂ f

/-- No kept feature's key is in the seen set. -/
theorem dedupeAux_not_seen (fs : List Feature) :
    ∀ seen, ∀ g ∈ dedupeAux seen fs, upperName g ∉ seen := by
  induction fs with
  | nil => intro seen g hg; simp [dedupeAux] at hg
  | cons f fs ih =>
    intro seen g hg
    simp only [dedupeAux, if_neg (getGridName_ne_empty f)] at hg
    by_cases hseen : upperStr (getGridName f) ∈ seen
    · rw [if_pos hseen] at hg
      exact ih seen g hg
    · rw [if_neg hseen] at hg
      rcases List.mem_cons.mp hg with he | hm
      · exact he ▸ hseen
      · intro hmem
        exact ih _ g hm (List.mem_cons_of_mem _ hmem)

/-- The kept features have pairwise distinct keys. -/
theorem dedupeAux_pairwise (fs : List Feature) :
    ∀ seen, (dedupeAux seen fs).Pairwise
      (fun a b => upperName a ≠ upperName b) := by
  induction fs with
  | nil => intro seen; simp [dedupeAux]
  | cons f fs ih =>
    intro seen
    simp only [dedupeAux, if_neg (getGridName_ne_empty f)]
    by_cases hseen : upperStr (getGridName f) ∈ seen
    · rw [if_pos hseen]
      exact ih seen
    · rw [if_neg hseen]
      refine List.pairwise_cons.mpr ⟨fun g hg he => ?_, ih _⟩
      exact dedupeAux_not_seen fs _ g hg (he ▸ List.mem_cons_self _ seen)

/-- Every unseen input name is represented by its first occurrence. -/
theorem dedupeAux_first (fs : List Feature) :
    ∀ seen, ∀ f ∈ fs, upperName f ∉ seen →
      ∃ g ∈ dedupeAux seen fs, upperName g = upperName f ∧
        fs.find? (fun x => upperName x == upperName f) = some g := by
  induction fs with
  | nil => intro seen f hf; simp at hf
  | cons f0 fs ih =>
    intro seen f hf hunseen
    simp only [dedupeAux, if_neg (getGridName_ne_empty f0)]
    by_cases hp : upperName f0 = upperName f
    · have hseen0 : upperStr (getGridName f0) ∉ seen := by
        rw [show upperStr (getGridName f0) = upperName f0 from rfl, hp]
        exact hunseen
      rw [if_neg hseen0]
      refine ⟨f0, List.mem_cons_self f0 _, hp, ?_⟩
      have hbeq : (upperName f0 == upperName f) = true := beq_iff_eq.mpr hp
      simp only [List.find?, hbeq]
    · have hfind : (f0 :: fs).find? (fun x => upperName x == upperName f) =
          fs.find? (fun x => upperName x == upperName f) := by
        have hbeq : (upperName f0 == upperName f) = false :=
          beq_eq_false_iff_ne.mpr hp
        simp only [List.find?, hbeq]
      have hfrest : f ∈ fs := by
        rcases List.mem_cons.mp hf with he | hm
        · exact absurd (congrArg upperName he).symm hp
        · exact hm
      rw [hfind]
      by_cases hseen0 : upperStr (getGridName f0) ∈ seen
      · rw [if_pos hseen0]
        exact ih seen f hfrest hunseen
      · rw [if_neg hseen0]
        have hunseen2 : upperName f ∉ upperName f0 :: seen := by
          intro hm
          rcases List.mem_cons.mp hm with he | hm2
          · exact hp he.symm
          · exact hunseen hm2
        rcases ih _ f hfrest hunseen2 with ⟨g, hg, hge, hgf⟩
        exact ⟨g, List.mem_cons_of_mem f0 hg, hge, hgf⟩

/-- C10: `dedupeFeaturesByName` returns a sublist of the input that
preserves order, contains no two features with the same uppercased name,
and keeps exactly the first occurrence of each uppercased name. -/
theorem C10_dedupe_first_occurrence (features : List Feature) :
    (dedupeFeaturesByName features).Sublist features ∧
    (dedupeFeaturesByName features).Pairwise
      (fun a b => upperName a ≠ upperName b) ∧
    ∀ f ∈ features, ∃ g ∈ dedupeFeaturesByName features,
      upperName g = upperName f ∧
      features.find? (fun x => upperName x == upperName f) = some g :=
  ⟨dedupeAux_sublist features [],
   dedupeAux_pairwise features [],
   fun f hf => dedupeAux_first features [] f hf (by simp)⟩

/-- C10, witness: the first-occurrence clause applied to a concrete list
with a case-variant duplicate: the representative of `01CCV` is the FIRST
occurrence (the lowercase-named feature). -/
theorem C10_witness :
    ∃ g ∈ dedupeFeaturesByName [c10FeatLower, c10FeatB, c10FeatUpper],
      upperName g = upperName c10FeatUpper ∧
      [c10FeatLower, c10FeatB, c10FeatUpper].find?
        (fun x => upperName x == upperName c10FeatUpper) = some g :=
  (C10_dedupe_first_occurrence [c10FeatLower, c10FeatB, c10FeatUpper]).2.2
    c10FeatUpper (by decide)

end Sentinel
